import Mathlib

/-!
# Verification of the dusk-plonk `TurboComposer` circuit builder

Shallow embedding of `src/constraint_system/composer.rs` (the `TurboComposer`
arithmetization front-end of a PLONK-style proof system): witness arena,
twelve selector vectors, four wire vectors, sparse public-input store,
lookup table, and the gate-appending / gadget operations, together with the
debug row-identity checker `check_circuit_satisfied`.

Field elements are `ZMod blsR` where `blsR` is the order of the BLS12-381
scalar field (the `BlsScalar` modulus).  Witness handles are dense indices
into a growable value arena (the source stores values in a `HashMap` keyed
by monotonically allocated handles, which is observationally the same).
The `BTreeMap` for public inputs is modelled as an association list kept in
strictly increasing key order.  Rust panics (`assert!`, `unwrap`, `expect`)
are modelled with `Option`.
-/

namespace DuskPlonk

/-- Order of the BLS12-381 scalar field: the `BlsScalar` modulus. -/
def blsR : ℕ :=
  52435875175126190479447740508185965837690552500527637822603658699938581184513

/-- The field of `BlsScalar` values. -/
abbrev F := ZMod blsR

instance : Fact (1 < blsR) := ⟨by norm_num [blsR]⟩

/-- A witness handle: a dense index into the composer's witness value arena. -/
abbrev Witness := ℕ

/-- Modelled from the spec: the `Constraint` transient builder lives in
`crate::constraint_system` whose file is not among the sources.  Per §3 of the
spec it holds up to 4 wire bindings (`A,B,O,D`, default Witness 0) and one
coefficient per selector (default zero), written through builder methods. -/
structure Constraint where
  qm : F := 0
  ql : F := 0
  qr : F := 0
  qo : F := 0
  q4 : F := 0
  qc : F := 0
  pi : F := 0
  qarith : F := 0
  qrange : F := 0
  qlogic : F := 0
  qfixed : F := 0
  qvariable : F := 0
  qlookup : F := 0
  wa : Witness := 0
  wb : Witness := 0
  wo : Witness := 0
  wd : Witness := 0

namespace Constraint

/-- `Constraint::new()`: all coefficients zero, all wires bound to Witness 0. -/
def new : Constraint := {}

def mult (v : F) (c : Constraint) : Constraint := { c with qm := v }

def left (v : F) (c : Constraint) : Constraint := { c with ql := v }

def right (v : F) (c : Constraint) : Constraint := { c with qr := v }

def output (v : F) (c : Constraint) : Constraint := { c with qo := v }

def fourth (v : F) (c : Constraint) : Constraint := { c with q4 := v }

def constant (v : F) (c : Constraint) : Constraint := { c with qc := v }

def public (v : F) (c : Constraint) : Constraint := { c with pi := v }

def a (w : Witness) (c : Constraint) : Constraint := { c with wa := w }

def b (w : Witness) (c : Constraint) : Constraint := { c with wb := w }

def o (w : Witness) (c : Constraint) : Constraint := { c with wo := w }

def d (w : Witness) (c : Constraint) : Constraint := { c with wd := w }

/-- `Constraint::arithmetic(&s)`: copy of `s` with the Arithmetic selector
coefficient set to one (every gate appended through `append_gate` is
arithmetized this way). -/
def arithmetic (c : Constraint) : Constraint := { c with qarith := 1 }

/-- Modelled from the spec: `has_public_input` — per §4.2 a public-input entry
is recorded "iff the constraint carries a nonzero `PublicInput` coefficient". -/
def has_public_input (c : Constraint) : Bool := decide (c.pi ≠ 0)

end Constraint

/-- The circuit-builder state: one entry per row in each of the twelve
selector vectors and four wire vectors, the sparse public-input store
(association list in strictly increasing key order, modelling the `BTreeMap`),
the lookup table and the witness value arena. -/
structure TurboComposer where
  n : ℕ
  q_m : List F
  q_l : List F
  q_r : List F
  q_o : List F
  q_4 : List F
  q_c : List F
  q_arith : List F
  q_range : List F
  q_logic : List F
  q_fixed_group_add : List F
  q_variable_group_add : List F
  q_lookup : List F
  public_inputs_sparse_store : List (ℕ × F)
  w_l : List Witness
  w_r : List Witness
  w_o : List Witness
  w_4 : List Witness
  lookup_table : List (F × F × F × F)
  witnesses : List F

/-- Ordered insertion into the association list modelling the `BTreeMap`
(replaces the value on an existing key, keeps keys sorted). -/
def store_insert (k : ℕ) (v : F) : List (ℕ × F) → List (ℕ × F)
  | [] => [(k, v)]
  | p :: t =>
    if k < p.1 then (k, v) :: p :: t
    else if k = p.1 then (k, v) :: t
    else p :: store_insert k v t

/-- Key lookup in the association list modelling the `BTreeMap`. -/
def store_find (k : ℕ) : List (ℕ × F) → Option F
  | [] => none
  | p :: t => if k = p.1 then some p.2 else store_find k t

/-- Resolve a witness handle to its assigned value (`self.witnesses[&w]`).
Handles obtained through the public API always point into the arena; the
default `0` only stands in for the map-indexing panic on a forged handle. -/
def wval (s : TurboComposer) (w : Witness) : F := (s.witnesses.get? w).getD 0

/-- `gates()`: the number of gates in the circuit. -/
def gates (s : TurboComposer) : ℕ := s.n

/-- `public_input_indexes()`: the keys of the sparse store, in the ascending
order the `BTreeMap` iterates them. -/
def public_input_indexes (s : TurboComposer) : List ℕ :=
  s.public_inputs_sparse_store.map Prod.fst

/-- Writes each sparse entry into the dense vector; `none` models the panic of
`pi[*pos as usize]` when a position is out of the vector's bounds. -/
def densify (n : ℕ) : List F → List (ℕ × F) → Option (List F)
  | piv, [] => some piv
  | piv, (k, v) :: t => if k < n then densify n (piv.set k v) t else none

/-- `to_dense_public_inputs()`: a vector of `n` zeros overwritten with the
sparse entries at their recorded positions. -/
def to_dense_public_inputs (s : TurboComposer) : Option (List F) :=
  densify s.n (List.replicate s.n 0) s.public_inputs_sparse_store

/-- `append_witness(scalar)`: allocate the next handle (the permutation's
variable counter, i.e. the arena size) and record the value. -/
def append_witness (v : F) (s : TurboComposer) : TurboComposer × Witness :=
  ({ s with witnesses := s.witnesses ++ [v] }, s.witnesses.length)

/-- `append_gate(s)`: arithmetize the constraint, push one entry on each of the
sixteen parallel vectors, record a public-input entry at row `n` iff
`has_public_input`, and increment `n`.  (The permutation occurrence
bookkeeping carries no information the claims below mention and is omitted.) -/
def append_gate (c : Constraint) (s : TurboComposer) : TurboComposer :=
  let c := Constraint.arithmetic c
  { s with
    w_l := s.w_l ++ [c.wa]
    w_r := s.w_r ++ [c.wb]
    w_o := s.w_o ++ [c.wo]
    w_4 := s.w_4 ++ [c.wd]
    q_m := s.q_m ++ [c.qm]
    q_l := s.q_l ++ [c.ql]
    q_r := s.q_r ++ [c.qr]
    q_o := s.q_o ++ [c.qo]
    q_4 := s.q_4 ++ [c.q4]
    q_c := s.q_c ++ [c.qc]
    q_arith := s.q_arith ++ [c.qarith]
    q_range := s.q_range ++ [c.qrange]
    q_logic := s.q_logic ++ [c.qlogic]
    q_fixed_group_add := s.q_fixed_group_add ++ [c.qfixed]
    q_variable_group_add := s.q_variable_group_add ++ [c.qvariable]
    q_lookup := s.q_lookup ++ [c.qlookup]
    public_inputs_sparse_store :=
      if c.has_public_input then
        store_insert s.n c.pi s.public_inputs_sparse_store
      else s.public_inputs_sparse_store
    n := s.n + 1 }

/-- `assert_equal_constant(a, constant, pi)`: emit `1·a - constant (+ pi) = 0`. -/
def assert_equal_constant (a : Witness) (constant : F) (pi : Option F)
    (s : TurboComposer) : TurboComposer :=
  let c := ((Constraint.new.left 1).constant (-constant)).a a
  let c := match pi with
    | some v => c.public v
    | none => c
  append_gate c s

/-- `assert_equal(a, b)`: emit `1·a - 1·b = 0`. -/
def assert_equal (a b : Witness) (s : TurboComposer) : TurboComposer :=
  append_gate ((((Constraint.new.left 1).right (-1)).a a).b b) s

/-- `append_constant(value)`: allocate a witness and constrain it to `value`. -/
def append_constant (v : F) (s : TurboComposer) : TurboComposer × Witness :=
  let sw := append_witness v s
  (assert_equal_constant sw.2 v none sw.1, sw.2)

/-- `append_dummy_gates()`: the two fixed dummy rows (nonzero selectors, fresh
witnesses 6, 1, 7, -20) plus the three rows prepended to the lookup table. -/
def append_dummy_gates (s : TurboComposer) : TurboComposer :=
  -- first dummy constraint, so that there are no zero polynomials
  let s1 := { s with
    q_m := s.q_m ++ [1]
    q_l := s.q_l ++ [2]
    q_r := s.q_r ++ [3]
    q_o := s.q_o ++ [4]
    q_c := s.q_c ++ [4]
    q_4 := s.q_4 ++ [1]
    q_arith := s.q_arith ++ [1]
    q_range := s.q_range ++ [0]
    q_logic := s.q_logic ++ [0]
    q_fixed_group_add := s.q_fixed_group_add ++ [0]
    q_variable_group_add := s.q_variable_group_add ++ [0]
    q_lookup := s.q_lookup ++ [1] }
  let p1 := append_witness 6 s1
  let var_six := p1.2
  let p2 := append_witness 1 p1.1
  let var_one := p2.2
  let p3 := append_witness 7 p2.1
  let var_seven := p3.2
  let p4 := append_witness (-20) p3.1
  let var_min_twenty := p4.2
  let s2 := { p4.1 with
    w_l := p4.1.w_l ++ [var_six]
    w_r := p4.1.w_r ++ [var_seven]
    w_o := p4.1.w_o ++ [var_min_twenty]
    w_4 := p4.1.w_4 ++ [var_one]
    n := p4.1.n + 1 }
  -- second dummy constraint, so that the permutation is not the identity
  { s2 with
    q_m := s2.q_m ++ [1]
    q_l := s2.q_l ++ [1]
    q_r := s2.q_r ++ [1]
    q_o := s2.q_o ++ [1]
    q_c := s2.q_c ++ [127]
    q_4 := s2.q_4 ++ [0]
    q_arith := s2.q_arith ++ [1]
    q_range := s2.q_range ++ [0]
    q_logic := s2.q_logic ++ [0]
    q_fixed_group_add := s2.q_fixed_group_add ++ [0]
    q_variable_group_add := s2.q_variable_group_add ++ [0]
    q_lookup := s2.q_lookup ++ [1]
    w_l := s2.w_l ++ [var_min_twenty]
    w_r := s2.w_r ++ [var_six]
    w_o := s2.w_o ++ [var_seven]
    w_4 := s2.w_4 ++ [0]
    -- three `insert(0, _)` calls: each prepends, so the last sits first
    lookup_table :=
      (3, 1, 4, 9) :: (-20, 6, 7, 0) :: (6, 7, -20, 1) :: s2.lookup_table
    n := s2.n + 1 }

/-- `with_size(size)`: fresh composer (capacity hints are irrelevant here),
with the reserved zero witness constrained at row 0 and the dummy gates. -/
def with_size (size : ℕ) : TurboComposer :=
  let s : TurboComposer := {
    n := 0
    q_m := [], q_l := [], q_r := [], q_o := [], q_4 := [], q_c := []
    q_arith := [], q_range := [], q_logic := []
    q_fixed_group_add := [], q_variable_group_add := [], q_lookup := []
    public_inputs_sparse_store := []
    w_l := [], w_r := [], w_o := [], w_4 := []
    lookup_table := []
    witnesses := [] }
  let _ := size
  append_dummy_gates (append_constant 0 s).1

/-- `TurboComposer::new()`. -/
def new : TurboComposer := with_size 0

/-- `append_output_witness(s)`: evaluate
`x = qm·a·b + ql·a + qr·b + q4·d + qc + pi`, multiply by `-(q_o)⁻¹` and
allocate the result; `none` models the `expect` panic when `q_o = 0`. -/
def append_output_witness (c : Constraint) (s : TurboComposer) :
    Option (TurboComposer × Witness) :=
  let av := wval s c.wa
  let bv := wval s c.wb
  let dv := wval s c.wd
  let x := c.qm * av * bv + c.ql * av + c.qr * bv + c.q4 * dv + c.qc + c.pi
  if c.qo = 0 then none
  else some (append_witness (x * -c.qo⁻¹) s)

/-- Modelled from the spec: `gate_add` (defined in the crate's arithmetic
module, not among the sources) — arithmetize the constraint, fix the Output
selector to `-1`, synthesize the output witness with `append_output_witness`
and append the gate with the output bound to wire `O`, returning the fresh
output witness. -/
def gate_add (c : Constraint) (s : TurboComposer) :
    Option (TurboComposer × Witness) :=
  let c := (Constraint.arithmetic c).output (-1)
  (append_output_witness c s).map fun sw => (append_gate (c.o sw.2) sw.1, sw.2)

/-- Modelled from the spec: `gate_mul` — same single-gate constructor as
`gate_add`; the multiplicative part sits in the caller's coefficients. -/
def gate_mul (c : Constraint) (s : TurboComposer) :
    Option (TurboComposer × Witness) :=
  let c := (Constraint.arithmetic c).output (-1)
  (append_output_witness c s).map fun sw => (append_gate (c.o sw.2) sw.1, sw.2)

/-- Modelled from the spec: `component_boolean(a)` (not among the sources) —
the single boolean-constraining gate `a·a - a = 0`. -/
def component_boolean (w : Witness) (s : TurboComposer) : TurboComposer :=
  append_gate (((((Constraint.new.mult 1).output (-1)).a w).b w).o w) s

/-- `component_select(bit, a, b)`: the three chained gates `bit·a`, `1-bit`,
`(1-bit)·b` and their sum.  The `debug` flag models `debug_assert!`: in a
debug build a `bit` valued outside `{0,1}` aborts (`none`). -/
def component_select (debug : Bool) (bit a b : Witness) (s : TurboComposer) :
    Option (TurboComposer × Witness) :=
  if debug ∧ ¬(wval s bit = 1 ∨ wval s bit = 0) then none
  else do
    let (s, bit_times_a) ← gate_mul (((Constraint.new.mult 1).a bit).b a) s
    let (s, one_min_bit) ←
      gate_add (((Constraint.new.left (-1)).constant 1).a bit) s
    let (s, one_min_bit_b) ←
      gate_mul (((Constraint.new.mult 1).a one_min_bit).b b) s
    gate_add ((((Constraint.new.left 1).right 1).a one_min_bit_b).b bit_times_a) s

/-- The fold inside `component_decomposition`: for each bit index, allocate the
bit witness, boolean-constrain it, and chain `2^i·bit + acc` through
`gate_add`. -/
def decomp_loop (bits : ℕ → Bool) : ℕ → ℕ → Witness → TurboComposer →
    Option (TurboComposer × List Witness × Witness)
  | _, 0, acc, s => some (s, [], acc)
  | i, k + 1, acc, s =>
    let p := append_witness (if bits i then 1 else 0) s
    let s1 := component_boolean p.2 p.1
    match gate_add ((((Constraint.new.left (2 ^ i)).right 1).a p.2).b acc) s1 with
    | none => none
    | some (s2, acc1) =>
      match decomp_loop bits (i + 1) k acc1 s2 with
      | none => none
      | some (s3, ds, accw) => some (s3, p.2 :: ds, accw)

/-- `component_decomposition::<N>(scalar)`: `none` models the panic of the
`assert!(0 < N && N <= 256)`, which is a plain assert, active in every build —
the `debug` parameter (build mode) is deliberately unused by it.  Within the
guard, the `zip` of the 256 canonical bits with the `N`-element array visits
exactly the `N` low-order bits; the final gate asserts the accumulator equal
to `scalar`. -/
def component_decomposition (debug : Bool) (N : ℕ) (scalar : Witness)
    (s : TurboComposer) : Option (TurboComposer × List Witness) :=
  let _ := debug
  if 0 < N ∧ N ≤ 256 then
    match decomp_loop (fun i => ((wval s scalar).val).testBit i) 0 N 0 s with
    | none => none
    | some (s1, _ds, acc) => some (assert_equal acc scalar s1, _ds)
  else none

/-- `append_plonkup_gate(a, b, c, d, pi)`: push the wire tuple, a zero for
every selector except `Lookup = 1`, record a public-input entry at row `n`
when `pi` is present, increment `n`, and return `c`. -/
def append_plonkup_gate (a b c d : Witness) (pi : Option F)
    (s : TurboComposer) : TurboComposer × Witness :=
  ({ s with
    w_l := s.w_l ++ [a]
    w_r := s.w_r ++ [b]
    w_o := s.w_o ++ [c]
    w_4 := s.w_4 ++ [d]
    q_l := s.q_l ++ [0]
    q_r := s.q_r ++ [0]
    q_o := s.q_o ++ [0]
    q_c := s.q_c ++ [0]
    q_4 := s.q_4 ++ [0]
    q_arith := s.q_arith ++ [0]
    q_m := s.q_m ++ [0]
    q_range := s.q_range ++ [0]
    q_logic := s.q_logic ++ [0]
    q_fixed_group_add := s.q_fixed_group_add ++ [0]
    q_variable_group_add := s.q_variable_group_add ++ [0]
    q_lookup := s.q_lookup ++ [1]
    public_inputs_sparse_store :=
      match pi with
      | some v => store_insert s.n v s.public_inputs_sparse_store
      | none => s.public_inputs_sparse_store
    n := s.n + 1 }, c)

/-- `append_plonkup_table(table)`: push every row of `table` onto the
composer's table. -/
def append_plonkup_table (t : List (F × F × F × F)) (s : TurboComposer) :
    TurboComposer :=
  { s with lookup_table := s.lookup_table ++ t }

/-- `δ(f) = f·(f-1)·(f-2)·(f-3)`. -/
def delta (f : F) : F := f * (f - 1) * (f - 2) * (f - 3)

/-- Bitwise AND of canonical representations (`BlsScalar & BlsScalar`). -/
def bls_and (x y : F) : F := ((Nat.land x.val y.val : ℕ) : F)

/-- Bitwise XOR of canonical representations (`BlsScalar ^ BlsScalar`). -/
def bls_xor (x y : F) : F := ((Nat.xor x.val y.val : ℕ) : F)

/-- Total list indexing used by the checker once lengths are known to match. -/
def lget (l : List F) (i : ℕ) : F := (l.get? i).getD 0

/-- The row identity `k` evaluated by `check_circuit_satisfied` at row `i`,
over the resolved wire-value columns and the dense public-input vector. -/
def row_eval (s : TurboComposer) (piv wl wr wo w4 : List F) (i : ℕ) : F :=
  let qm := lget s.q_m i
  let ql := lget s.q_l i
  let qr := lget s.q_r i
  let qo := lget s.q_o i
  let qc := lget s.q_c i
  let q4 := lget s.q_4 i
  let qarith := lget s.q_arith i
  let qrange := lget s.q_range i
  let qlogic := lget s.q_logic i
  let pi := lget piv i
  let av := lget wl i
  let a_next := lget wl ((i + 1) % s.n)
  let bv := lget wr i
  let b_next := lget wr ((i + 1) % s.n)
  let cv := lget wo i
  let dv := lget w4 i
  let d_next := lget w4 ((i + 1) % s.n)
  let four : F := 4
  qarith * (qm * av * bv + ql * av + qr * bv + qo * cv + q4 * dv + pi + qc)
    + qlogic *
      ((delta (a_next - four * av) - delta (b_next - four * bv)) * cv
        + delta (a_next - four * av) + delta (b_next - four * bv)
        + delta (d_next - four * dv)
        + (if qlogic = 1 then bls_and av bv - dv
          else if qlogic = -1 then bls_xor av bv - dv else 0))
    + qrange *
      (delta (cv - four * dv) + delta (bv - four * cv)
        + delta (av - four * bv) + delta (d_next - four * av))

/-- Resolution of a wire column through the witness table; `none` models the
`unwrap` panic on a handle missing from the map. -/
def resolve_wires (s : TurboComposer) : List Witness → Option (List F)
  | [] => some []
  | w :: t =>
    match s.witnesses.get? w, resolve_wires s t with
    | some v, some vs => some (v :: vs)
    | _, _ => none

/-- `check_circuit_satisfied()`: resolve the four wire columns, densify the
public inputs, and test the row identity at every row; `some true` means every
row satisfied, `some false` the `assert_eq!` panic on a failing row, `none`
the earlier resolution/indexing panics. -/
def check_circuit_satisfied (s : TurboComposer) : Option Bool := do
  let wl ← resolve_wires s s.w_l
  let wr ← resolve_wires s s.w_r
  let wo ← resolve_wires s s.w_o
  let w4 ← resolve_wires s s.w_4
  let piv ← to_dense_public_inputs s
  return (List.range s.n).all fun i => row_eval s piv wl wr wo w4 i == 0

/-- Left-biased choice on options (`BTreeMap` lookup through an append). -/
def opt_or (x y : Option F) : Option F :=
  match x with
  | some v => some v
  | none => y

/-- The public-input value the checker sees at row `i` (zero off the store). -/
def pi_at (s : TurboComposer) (i : ℕ) : F :=
  (store_find i s.public_inputs_sparse_store).getD 0

/-- The arithmetic part of the row identity at row `i`, evaluated directly on
the composer state; when the Range and Logic selectors are zero everywhere
this is the whole identity. -/
def arith_row (s : TurboComposer) (i : ℕ) : F :=
  lget s.q_arith i *
    (lget s.q_m i * wval s ((s.w_l.get? i).getD 0) * wval s ((s.w_r.get? i).getD 0)
      + lget s.q_l i * wval s ((s.w_l.get? i).getD 0)
      + lget s.q_r i * wval s ((s.w_r.get? i).getD 0)
      + lget s.q_o i * wval s ((s.w_o.get? i).getD 0)
      + lget s.q_4 i * wval s ((s.w_4.get? i).getD 0)
      + pi_at s i + lget s.q_c i)

/-- All sixteen parallel vectors have length exactly `n`. -/
structure Lens (s : TurboComposer) : Prop where
  qm : s.q_m.length = s.n
  ql : s.q_l.length = s.n
  qr : s.q_r.length = s.n
  qo : s.q_o.length = s.n
  q4 : s.q_4.length = s.n
  qc : s.q_c.length = s.n
  qarith : s.q_arith.length = s.n
  qrange : s.q_range.length = s.n
  qlogic : s.q_logic.length = s.n
  qfixed : s.q_fixed_group_add.length = s.n
  qvariable : s.q_variable_group_add.length = s.n
  qlookup : s.q_lookup.length = s.n
  wl : s.w_l.length = s.n
  wr : s.w_r.length = s.n
  wo : s.w_o.length = s.n
  w4 : s.w_4.length = s.n

/-- The sparse store's keys are strictly increasing and below `n`. -/
structure StoreInv (s : TurboComposer) : Prop where
  keys_lt : ∀ p ∈ s.public_inputs_sparse_store, p.1 < s.n
  sorted : s.public_inputs_sparse_store.Pairwise (fun p q => p.1 < q.1)

/-- Everything the debug checker needs to report success: lengths, bound
wire handles, all-zero Range/Logic selectors, and a vanishing arithmetic
identity at every row. -/
structure CheckInv (s : TurboComposer) : Prop where
  lens : Lens s
  store : StoreInv s
  wl_lt : ∀ w ∈ s.w_l, w < s.witnesses.length
  wr_lt : ∀ w ∈ s.w_r, w < s.witnesses.length
  wo_lt : ∀ w ∈ s.w_o, w < s.witnesses.length
  w4_lt : ∀ w ∈ s.w_4, w < s.witnesses.length
  qrange0 : ∀ q ∈ s.q_range, q = 0
  qlogic0 : ∀ q ∈ s.q_logic, q = 0
  rows : ∀ i, i < s.n → arith_row s i = 0

/-- The value `gate_add`/`gate_mul` assign to their fresh output witness. -/
def add_out (c : Constraint) (s : TurboComposer) : F :=
  c.qm * wval s c.wa * wval s c.wb + c.ql * wval s c.wa + c.qr * wval s c.wb
    + c.q4 * wval s c.wd + c.qc + c.pi

/-- States reachable through the composer's public mutating API. -/
inductive Reachable : TurboComposer → Prop
  | init (size : ℕ) : Reachable (with_size size)
  | append_witness_step (v : F) (s : TurboComposer) :
      Reachable s → Reachable (append_witness v s).1
  | append_gate_step (c : Constraint) (s : TurboComposer) :
      Reachable s → Reachable (append_gate c s)
  | append_plonkup_gate_step (a b c d : Witness) (pi : Option F)
      (s : TurboComposer) :
      Reachable s → Reachable (append_plonkup_gate a b c d pi s).1
  | append_dummy_gates_step (s : TurboComposer) :
      Reachable s → Reachable (append_dummy_gates s)
  | append_plonkup_table_step (t : List (F × F × F × F)) (s : TurboComposer) :
      Reachable s → Reachable (append_plonkup_table t s)

/-- The arithmetic part of the row identity a submitted constraint puts at its
row, evaluated on the current witness values. -/
def arith_eval (c : Constraint) (s : TurboComposer) : F :=
  c.qm * wval s c.wa * wval s c.wb + c.ql * wval s c.wa + c.qr * wval s c.wb
    + c.qo * wval s c.wo + c.q4 * wval s c.wd + c.pi + c.qc

/-- States reachable through the API when every `append_gate` submission binds
arena handles, leaves the Range and Logic selectors at zero, and carries an
arithmetic identity that evaluates to zero on the assigned values — exactly
what every gate the composer itself emits does. -/
inductive SatReachable : TurboComposer → Prop
  | init (size : ℕ) : SatReachable (with_size size)
  | append_witness_step (v : F) (s : TurboComposer) :
      SatReachable s → SatReachable (append_witness v s).1
  | append_gate_step (c : Constraint) (s : TurboComposer) :
      SatReachable s →
      c.wa < s.witnesses.length → c.wb < s.witnesses.length →
      c.wo < s.witnesses.length → c.wd < s.witnesses.length →
      c.qrange = 0 → c.qlogic = 0 →
      arith_eval c s = 0 →
      SatReachable (append_gate c s)
  | append_plonkup_gate_step (a b c d : Witness) (pi : Option F)
      (s : TurboComposer) :
      SatReachable s →
      a < s.witnesses.length → b < s.witnesses.length →
      c < s.witnesses.length → d < s.witnesses.length →
      SatReachable (append_plonkup_gate a b c d pi s).1
  | append_dummy_gates_step (s : TurboComposer) :
      SatReachable s → SatReachable (append_dummy_gates s)
  | append_plonkup_table_step (t : List (F × F × F × F)) (s : TurboComposer) :
      SatReachable s → SatReachable (append_plonkup_table t s)

/-- A fresh composer followed by one gate carrying a public input of 7. -/
def pi_example : TurboComposer := append_gate (Constraint.new.public 7) new

/-- A fresh composer with one extra witness valued 5 (handle 5). -/
def five_state : TurboComposer := (append_witness 5 new).1

/-- A fresh composer with three extra witnesses: a bit valued 1 (handle 5)
and two choices valued 10 (handle 6) and 20 (handle 7). -/
def select_state : TurboComposer :=
  (append_witness 20 (append_witness 10 (append_witness 1 new).1).1).1

/-- A circuit built through the API whose `assert_equal` gate is violated by
the assigned values (`1 ≠ 0`). -/
def bad_circuit : TurboComposer :=
  let p1 := append_witness 1 new
  let p2 := append_witness 0 p1.1
  assert_equal p1.2 p2.2 p2.1

/-! ## Helper lemmas on lists and the sparse store -/

theorem get?_snoc {α} {l : List α} {i : ℕ} {v x : α} (h : l.get? i = some v) :
    (l ++ [x]).get? i = some v := by
  obtain ⟨hi, -⟩ := List.get?_eq_some.mp h
  rw [List.get?_append hi, h]

theorem get?_snoc_self {α} (l : List α) (x : α) :
    (l ++ [x]).get? l.length = some x :=
  List.get?_concat_length l x

theorem lt_length_of_get? {α} {l : List α} {i : ℕ} {v : α}
    (h : l.get? i = some v) : i < l.length :=
  (List.get?_eq_some.mp h).1

theorem wval_eq_of_get? {s : TurboComposer} {w : Witness} {v : F}
    (h : s.witnesses.get? w = some v) : wval s w = v := by
  unfold wval
  rw [h]
  rfl

theorem lget_snoc {l : List F} {i : ℕ} (x : F) (h : i < l.length) :
    lget (l ++ [x]) i = lget l i := by
  unfold lget
  rw [List.get?_append h]

theorem lget_snoc_self (l : List F) (x : F) : lget (l ++ [x]) l.length = x := by
  simp [lget, get?_snoc_self]

theorem store_insert_eq_append {k : ℕ} {v : F} :
    ∀ {l : List (ℕ × F)}, (∀ p ∈ l, p.1 < k) → store_insert k v l = l ++ [(k, v)]
  | [], _ => rfl
  | p :: t, h => by
    have hp : p.1 < k := h p (List.mem_cons_self p t)
    have h1 : ¬k < p.1 := by omega
    have h2 : ¬k = p.1 := by omega
    simp only [store_insert, if_neg h1, if_neg h2, List.cons_append,
      List.cons.injEq, true_and]
    exact store_insert_eq_append fun q hq => h q (List.mem_cons_of_mem p hq)

theorem store_find_append {k : ℕ} :
    ∀ {l₁ l₂ : List (ℕ × F)},
      store_find k (l₁ ++ l₂) = opt_or (store_find k l₁) (store_find k l₂)
  | [], _ => rfl
  | p :: t, l₂ => by
    by_cases h : k = p.1
    · simp [store_find, h, opt_or]
    · simp only [List.cons_append, store_find, if_neg h]
      exact store_find_append

theorem store_find_eq_none {k : ℕ} :
    ∀ {l : List (ℕ × F)}, (∀ p ∈ l, p.1 ≠ k) → store_find k l = none
  | [], _ => rfl
  | p :: t, h => by
    have : ¬k = p.1 := fun hk => h p (List.mem_cons_self p t) hk.symm
    simp only [store_find, if_neg this]
    exact store_find_eq_none fun q hq => h q (List.mem_cons_of_mem p hq)

theorem store_find_isSome_iff_mem {k : ℕ} :
    ∀ {l : List (ℕ × F)}, (store_find k l).isSome ↔ k ∈ l.map Prod.fst
  | [] => by simp [store_find]
  | p :: t => by
    by_cases h : k = p.1
    · simp [store_find, h]
    · simp only [store_find, if_neg h, List.map_cons, List.mem_cons]
      rw [store_find_isSome_iff_mem]
      exact (or_iff_right h).symm

/-- Writing the sparse entries into the dense vector: success and pointwise
characterization, given in-bound pairwise-distinct keys. -/
theorem densify_spec {n : ℕ} :
    ∀ (l : List (ℕ × F)) (piv : List F), piv.length = n →
      (∀ p ∈ l, p.1 < n) → l.Pairwise (fun p q => p.1 ≠ q.1) →
      ∃ r, densify n piv l = some r ∧ r.length = n ∧
        ∀ j, r.get? j = opt_or (store_find j l) (piv.get? j)
  | [], piv, hlen, _, _ => ⟨piv, rfl, hlen, fun j => by simp [store_find, opt_or]⟩
  | (k, v) :: t, piv, hlen, hlt, hpw => by
    have hk : k < n := hlt (k, v) (List.mem_cons_self _ t)
    have hset : (piv.set k v).length = n := by simp [hlen]
    obtain ⟨r, hr, hrlen, hget⟩ :=
      densify_spec t (piv.set k v) hset
        (fun p hp => hlt p (List.mem_cons_of_mem _ hp)) hpw.of_cons
    refine ⟨r, ?_, hrlen, ?_⟩
    · simp only [densify, if_pos hk]; exact hr
    · intro j
      rcases eq_or_ne j k with rfl | hjk
      · have hnone : store_find j t = none :=
          store_find_eq_none fun p hp =>
            ((List.pairwise_cons.mp hpw).1 p hp).symm
        rw [hget j, hnone]
        simp only [store_find, if_pos rfl, opt_or]
        rw [List.get?_set_eq, List.get?_eq_get (by omega : j < piv.length)]
        rfl
      · rw [hget j]
        simp only [store_find, if_neg hjk, opt_or]
        rw [List.get?_set_ne v piv (Ne.symm hjk)]

/-! ## Invariant preservation along the public API -/

theorem lens_with_size (size : ℕ) : Lens (with_size size) := by
  constructor <;> rfl

theorem lens_append_witness {s : TurboComposer} (h : Lens s) (v : F) :
    Lens (append_witness v s).1 := by
  obtain ⟨h1, h2, h3, h4, h5, h6, h7, h8, h9, h10, h11, h12, h13, h14, h15, h16⟩ := h
  exact ⟨h1, h2, h3, h4, h5, h6, h7, h8, h9, h10, h11, h12, h13, h14, h15, h16⟩

theorem lens_append_gate {s : TurboComposer} (h : Lens s) (c : Constraint) :
    Lens (append_gate c s) := by
  obtain ⟨h1, h2, h3, h4, h5, h6, h7, h8, h9, h10, h11, h12, h13, h14, h15, h16⟩ := h
  constructor <;>
    simp [append_gate, h1, h2, h3, h4, h5, h6, h7, h8, h9, h10, h11, h12, h13,
      h14, h15, h16]

theorem lens_append_plonkup_gate {s : TurboComposer} (h : Lens s)
    (a b c d : Witness) (pi : Option F) :
    Lens (append_plonkup_gate a b c d pi s).1 := by
  obtain ⟨h1, h2, h3, h4, h5, h6, h7, h8, h9, h10, h11, h12, h13, h14, h15, h16⟩ := h
  constructor <;>
    simp [append_plonkup_gate, h1, h2, h3, h4, h5, h6, h7, h8, h9, h10, h11,
      h12, h13, h14, h15, h16]

theorem lens_append_dummy_gates {s : TurboComposer} (h : Lens s) :
    Lens (append_dummy_gates s) := by
  obtain ⟨h1, h2, h3, h4, h5, h6, h7, h8, h9, h10, h11, h12, h13, h14, h15, h16⟩ := h
  constructor <;>
    simp [append_dummy_gates, append_witness, h1, h2, h3, h4, h5, h6, h7, h8,
      h9, h10, h11, h12, h13, h14, h15, h16]

theorem lens_append_plonkup_table {s : TurboComposer} (h : Lens s)
    (t : List (F × F × F × F)) : Lens (append_plonkup_table t s) := by
  obtain ⟨h1, h2, h3, h4, h5, h6, h7, h8, h9, h10, h11, h12, h13, h14, h15, h16⟩ := h
  exact ⟨h1, h2, h3, h4, h5, h6, h7, h8, h9, h10, h11, h12, h13, h14, h15, h16⟩

theorem reachable_lens {s : TurboComposer} (h : Reachable s) : Lens s := by
  induction h with
  | init size => exact lens_with_size size
  | append_witness_step v s _ ih => exact lens_append_witness ih v
  | append_gate_step c s _ ih => exact lens_append_gate ih c
  | append_plonkup_gate_step a b c d pi s _ ih =>
    exact lens_append_plonkup_gate ih a b c d pi
  | append_dummy_gates_step s _ ih => exact lens_append_dummy_gates ih
  | append_plonkup_table_step t s _ ih => exact lens_append_plonkup_table ih t

theorem store_inv_insert {s : TurboComposer} (h : StoreInv s) (v : F) :
    (∀ p ∈ store_insert s.n v s.public_inputs_sparse_store, p.1 < s.n + 1) ∧
      (store_insert s.n v s.public_inputs_sparse_store).Pairwise
        (fun p q => p.1 < q.1) := by
  rw [store_insert_eq_append h.keys_lt]
  constructor
  · intro p hp
    rcases List.mem_append.mp hp with hp | hp
    · exact Nat.lt_succ_of_lt (h.keys_lt p hp)
    · simp only [List.mem_singleton] at hp
      subst hp
      exact Nat.lt_succ_self _
  · refine List.pairwise_append.mpr ⟨h.sorted, List.pairwise_singleton _ _, ?_⟩
    intro p hp q hq
    simp only [List.mem_singleton] at hq
    subst hq
    exact h.keys_lt p hp

theorem store_inv_with_size (size : ℕ) : StoreInv (with_size size) := by
  constructor
  · intro p hp
    simp only [show (with_size size).public_inputs_sparse_store = [] from rfl,
      List.not_mem_nil] at hp
  · rw [show (with_size size).public_inputs_sparse_store = [] from rfl]
    exact List.Pairwise.nil

theorem store_inv_append_gate {s : TurboComposer} (h : StoreInv s)
    (c : Constraint) : StoreInv (append_gate c s) := by
  have hstore : (append_gate c s).public_inputs_sparse_store =
      (if (Constraint.arithmetic c).has_public_input then
        store_insert s.n c.pi s.public_inputs_sparse_store
      else s.public_inputs_sparse_store) := rfl
  have hn : (append_gate c s).n = s.n + 1 := rfl
  constructor
  · intro p hp
    rw [hstore] at hp
    rw [hn]
    split at hp
    · exact (store_inv_insert h c.pi).1 p hp
    · exact Nat.lt_succ_of_lt (h.keys_lt p hp)
  · rw [hstore]
    split
    · exact (store_inv_insert h c.pi).2
    · exact h.sorted

theorem store_inv_append_plonkup_gate {s : TurboComposer} (h : StoreInv s)
    (a b c d : Witness) (pi : Option F) :
    StoreInv (append_plonkup_gate a b c d pi s).1 := by
  have hstore : (append_plonkup_gate a b c d pi s).1.public_inputs_sparse_store =
      (match pi with
        | some v => store_insert s.n v s.public_inputs_sparse_store
        | none => s.public_inputs_sparse_store) := rfl
  have hn : (append_plonkup_gate a b c d pi s).1.n = s.n + 1 := rfl
  constructor
  · intro p hp
    rw [hstore] at hp
    rw [hn]
    match pi with
    | some v => exact (store_inv_insert h v).1 p hp
    | none => exact Nat.lt_succ_of_lt (h.keys_lt p hp)
  · rw [hstore]
    match pi with
    | some v => exact (store_inv_insert h v).2
    | none => exact h.sorted

theorem store_inv_append_dummy_gates {s : TurboComposer} (h : StoreInv s) :
    StoreInv (append_dummy_gates s) := by
  constructor
  · intro p hp
    have hlt : p.1 < s.n := h.keys_lt p hp
    show p.1 < s.n + 2
    omega
  · exact h.sorted

theorem reachable_store_inv {s : TurboComposer} (h : Reachable s) : StoreInv s := by
  induction h with
  | init size => exact store_inv_with_size size
  | append_witness_step v s _ ih => exact ⟨ih.keys_lt, ih.sorted⟩
  | append_gate_step c s _ ih => exact store_inv_append_gate ih c
  | append_plonkup_gate_step a b c d pi s _ ih =>
    exact store_inv_append_plonkup_gate ih a b c d pi
  | append_dummy_gates_step s _ ih => exact store_inv_append_dummy_gates ih
  | append_plonkup_table_step t s _ ih => exact ⟨ih.keys_lt, ih.sorted⟩

/-! ## C8, C3, C4, C2, C10, C7 -/

/-- C8: a freshly constructed composer (`new` / `with_size`) reports
`gates() == 3`; row 0 is the gate forcing the reserved witness 0 (valued
zero) to equal the zero constant, rows 1 and 2 being the dummy gates. -/
theorem C8_initial_gates :
    gates new = 3 ∧ (∀ size, gates (with_size size) = 3) ∧
      new.w_l.get? 0 = some 0 ∧ new.q_l.get? 0 = some 1 ∧
      new.q_c.get? 0 = some 0 ∧ new.q_arith.get? 0 = some 1 ∧
      new.witnesses.get? 0 = some 0 := by
  refine ⟨rfl, fun _ => rfl, ?_, ?_, ?_, ?_, ?_⟩ <;> decide

/-- C3: `append_plonkup_gate(a,b,c,d,pi)` appends exactly one row whose only
nonzero selector entry is `Lookup = 1`, sets the wire row to `(a,b,c,d)`,
and returns `c` unchanged. -/
theorem C3_append_plonkup_gate_row (s : TurboComposer) (a b c d : Witness)
    (pi : Option F) :
    (append_plonkup_gate a b c d pi s).2 = c ∧
    (append_plonkup_gate a b c d pi s).1.q_lookup = s.q_lookup ++ [1] ∧
    (append_plonkup_gate a b c d pi s).1.q_m = s.q_m ++ [0] ∧
    (append_plonkup_gate a b c d pi s).1.q_l = s.q_l ++ [0] ∧
    (append_plonkup_gate a b c d pi s).1.q_r = s.q_r ++ [0] ∧
    (append_plonkup_gate a b c d pi s).1.q_o = s.q_o ++ [0] ∧
    (append_plonkup_gate a b c d pi s).1.q_4 = s.q_4 ++ [0] ∧
    (append_plonkup_gate a b c d pi s).1.q_c = s.q_c ++ [0] ∧
    (append_plonkup_gate a b c d pi s).1.q_arith = s.q_arith ++ [0] ∧
    (append_plonkup_gate a b c d pi s).1.q_range = s.q_range ++ [0] ∧
    (append_plonkup_gate a b c d pi s).1.q_logic = s.q_logic ++ [0] ∧
    (append_plonkup_gate a b c d pi s).1.q_fixed_group_add
      = s.q_fixed_group_add ++ [0] ∧
    (append_plonkup_gate a b c d pi s).1.q_variable_group_add
      = s.q_variable_group_add ++ [0] ∧
    (append_plonkup_gate a b c d pi s).1.w_l = s.w_l ++ [a] ∧
    (append_plonkup_gate a b c d pi s).1.w_r = s.w_r ++ [b] ∧
    (append_plonkup_gate a b c d pi s).1.w_o = s.w_o ++ [c] ∧
    (append_plonkup_gate a b c d pi s).1.w_4 = s.w_4 ++ [d] ∧
    (append_plonkup_gate a b c d pi s).1.n = s.n + 1 :=
  ⟨rfl, rfl, rfl, rfl, rfl, rfl, rfl, rfl, rfl, rfl, rfl, rfl, rfl, rfl, rfl,
    rfl, rfl, rfl⟩

/-- C4 counterexample: on a fresh composer (empty sparse store),
`append_plonkup_gate` with `pi = Some(0)` creates the entry `(3, 0)` — an
entry whose associated PublicInput coefficient is zero, contradicting the
claim that no operation creates such an entry. -/
theorem C4_counterexample :
    new.public_inputs_sparse_store = [] ∧
      (append_plonkup_gate 0 0 0 0 (some 0) new).1.public_inputs_sparse_store
        = [(3, 0)] := by
  exact ⟨by decide, by decide⟩

/-- C4 amended: `append_gate` records an entry at the pre-increment row `n`
exactly when the constraint's PublicInput coefficient is nonzero, while
`append_plonkup_gate` records an entry at row `n` exactly when its optional
`pi` argument is present — whatever its value, a zero included. -/
theorem C4_pi_store_amended (c : Constraint) (s : TurboComposer)
    (a b o d : Witness) (pi : Option F) :
    (append_gate c s).public_inputs_sparse_store =
      (if c.pi ≠ 0 then store_insert s.n c.pi s.public_inputs_sparse_store
        else s.public_inputs_sparse_store) ∧
    (append_plonkup_gate a b o d pi s).1.public_inputs_sparse_store =
      (match pi with
        | some v => store_insert s.n v s.public_inputs_sparse_store
        | none => s.public_inputs_sparse_store) := by
  constructor
  · show (if (Constraint.arithmetic c).has_public_input then
        store_insert s.n c.pi s.public_inputs_sparse_store
      else s.public_inputs_sparse_store) = _
    simp only [Constraint.has_public_input, Constraint.arithmetic,
      decide_eq_true_eq]
  · rfl

/-- C2: at every reachable state all sixteen parallel vectors have length
exactly `n`; each single-gate append (`append_gate`, `append_plonkup_gate`)
increases `n` by exactly one, `append_dummy_gates` by two, and the remaining
operations leave `n` unchanged — `n` never decreases. -/
theorem C2_parallel_lengths (s : TurboComposer) (h : Reachable s) :
    (s.q_m.length = s.n ∧ s.q_l.length = s.n ∧ s.q_r.length = s.n ∧
      s.q_o.length = s.n ∧ s.q_4.length = s.n ∧ s.q_c.length = s.n ∧
      s.q_arith.length = s.n ∧ s.q_range.length = s.n ∧
      s.q_logic.length = s.n ∧ s.q_fixed_group_add.length = s.n ∧
      s.q_variable_group_add.length = s.n ∧ s.q_lookup.length = s.n ∧
      s.w_l.length = s.n ∧ s.w_r.length = s.n ∧ s.w_o.length = s.n ∧
      s.w_4.length = s.n) ∧
    (∀ c, (append_gate c s).n = s.n + 1) ∧
    (∀ a b o d pi, (append_plonkup_gate a b o d pi s).1.n = s.n + 1) ∧
    (∀ v, (append_witness v s).1.n = s.n) ∧
    (append_dummy_gates s).n = s.n + 2 ∧
    (∀ t, (append_plonkup_table t s).n = s.n) := by
  obtain ⟨h1, h2, h3, h4, h5, h6, h7, h8, h9, h10, h11, h12, h13, h14, h15, h16⟩ :=
    reachable_lens h
  exact ⟨⟨h1, h2, h3, h4, h5, h6, h7, h8, h9, h10, h11, h12, h13, h14, h15, h16⟩,
    fun _ => rfl, fun _ _ _ _ _ => rfl, fun _ => rfl, rfl, fun _ => rfl⟩

theorem C2_parallel_lengths_witness :
    new.q_m.length = new.n ∧ new.w_4.length = new.n ∧
      (append_gate Constraint.new new).n = new.n + 1 ∧
      (append_plonkup_gate 0 0 0 0 none new).1.n = new.n + 1 ∧
      (append_witness 0 new).1.n = new.n ∧
      (append_dummy_gates new).n = new.n + 2 ∧
      (append_plonkup_table [] new).n = new.n := by
  have h := C2_parallel_lengths new (Reachable.init 0)
  exact ⟨h.1.1, h.1.2.2.2.2.2.2.2.2.2.2.2.2.2.2.2, h.2.1 Constraint.new,
    h.2.2.1 0 0 0 0 none, h.2.2.2.1 0, h.2.2.2.2.1, h.2.2.2.2.2 []⟩

/-- C10: at every reachable state every key of the sparse public-input store
is strictly below `n`, hence the `pi[pos]` indexing inside
`to_dense_public_inputs` stays within its length-`n` vector and the function
returns without panicking. -/
theorem C10_dense_no_panic (s : TurboComposer) (h : Reachable s) :
    (∀ p ∈ s.public_inputs_sparse_store, p.1 < s.n) ∧
      (to_dense_public_inputs s).isSome := by
  have hs := reachable_store_inv h
  obtain ⟨r, hr, -, -⟩ := densify_spec s.public_inputs_sparse_store
    (List.replicate s.n 0) (List.length_replicate _ _) hs.keys_lt
    (hs.sorted.imp fun hab => Nat.ne_of_lt hab)
  refine ⟨hs.keys_lt, ?_⟩
  rw [to_dense_public_inputs, hr]
  rfl

theorem C10_dense_no_panic_witness :
    (to_dense_public_inputs pi_example).isSome :=
  (C10_dense_no_panic pi_example
    (Reachable.append_gate_step _ _ (Reachable.init 0))).2

/-- C7: at every reachable state `to_dense_public_inputs` yields a vector of
length exactly `n` reproducing every sparse entry at its recorded row, zero
at every other index, and `public_input_indexes` yields exactly the recorded
rows in ascending order. -/
theorem C7_dense_round_trip (s : TurboComposer) (h : Reachable s) :
    ∃ piv, to_dense_public_inputs s = some piv ∧ piv.length = s.n ∧
      (∀ k v, store_find k s.public_inputs_sparse_store = some v →
        piv.get? k = some v) ∧
      (∀ k, k < s.n → store_find k s.public_inputs_sparse_store = none →
        piv.get? k = some 0) ∧
      public_input_indexes s = s.public_inputs_sparse_store.map Prod.fst ∧
      List.Pairwise (· < ·) (public_input_indexes s) ∧
      (∀ k, k ∈ public_input_indexes s ↔
        (store_find k s.public_inputs_sparse_store).isSome) := by
  have hs := reachable_store_inv h
  obtain ⟨r, hr, hrlen, hget⟩ := densify_spec s.public_inputs_sparse_store
    (List.replicate s.n 0) (List.length_replicate _ _) hs.keys_lt
    (hs.sorted.imp fun hab => Nat.ne_of_lt hab)
  refine ⟨r, hr, hrlen, ?_, ?_, rfl, ?_, ?_⟩
  · intro k v hk
    rw [hget k, hk]
    rfl
  · intro k hk hnone
    rw [hget k, hnone]
    show List.get? _ _ = _
    rw [List.get?_eq_get (by simpa using hk)]
    simp
  · exact List.pairwise_map.mpr hs.sorted
  · intro k
    exact store_find_isSome_iff_mem.symm

theorem C7_dense_round_trip_witness :
    Reachable pi_example ∧
      (∃ piv, to_dense_public_inputs pi_example = some piv ∧
        piv.length = pi_example.n ∧
        (∀ k v, store_find k pi_example.public_inputs_sparse_store = some v →
          piv.get? k = some v) ∧
        (∀ k, k < pi_example.n →
          store_find k pi_example.public_inputs_sparse_store = none →
          piv.get? k = some 0) ∧
        public_input_indexes pi_example =
          pi_example.public_inputs_sparse_store.map Prod.fst ∧
        List.Pairwise (· < ·) (public_input_indexes pi_example) ∧
        (∀ k, k ∈ public_input_indexes pi_example ↔
          (store_find k pi_example.public_inputs_sparse_store).isSome)) :=
  ⟨Reachable.append_gate_step _ _ (Reachable.init 0),
    C7_dense_round_trip pi_example
      (Reachable.append_gate_step _ _ (Reachable.init 0))⟩

/-! ## Gate synthesis lemmas (`gate_add` / `gate_mul`), C5 and C9 -/

theorem neg_one_ne_zero' : (-1 : F) ≠ 0 := fun h => one_ne_zero (neg_eq_zero.mp h)

theorem inv_neg_one : ((-1 : F))⁻¹ = -1 := by
  have hu : IsUnit (-1 : F) := IsUnit.neg isUnit_one
  have h := ZMod.inv_mul_of_unit (-1 : F) hu
  calc ((-1 : F))⁻¹ = ((-1 : F))⁻¹ * (-1) * (-1) := by ring
    _ = 1 * (-1) := by rw [h]
    _ = -1 := by ring

theorem gate_add_eq (c : Constraint) (s : TurboComposer) :
    gate_add c s = some
      (append_gate (((Constraint.arithmetic c).output (-1)).o s.witnesses.length)
        (append_witness (add_out c s) s).1,
      s.witnesses.length) := by
  have hval : add_out c s * -((-1 : F))⁻¹ = add_out c s := by
    rw [inv_neg_one]; ring
  have h1 : gate_add c s = (if (-1 : F) = 0 then none else
      some (append_witness (add_out c s * -((-1 : F))⁻¹) s)).map
      (fun sw =>
        (append_gate (((Constraint.arithmetic c).output (-1)).o sw.2) sw.1,
          sw.2)) := rfl
  rw [h1, if_neg neg_one_ne_zero', hval]
  rfl

theorem gate_mul_eq (c : Constraint) (s : TurboComposer) :
    gate_mul c s = some
      (append_gate (((Constraint.arithmetic c).output (-1)).o s.witnesses.length)
        (append_witness (add_out c s) s).1,
      s.witnesses.length) := by
  have hval : add_out c s * -((-1 : F))⁻¹ = add_out c s := by
    rw [inv_neg_one]; ring
  have h1 : gate_mul c s = (if (-1 : F) = 0 then none else
      some (append_witness (add_out c s * -((-1 : F))⁻¹) s)).map
      (fun sw =>
        (append_gate (((Constraint.arithmetic c).output (-1)).o sw.2) sw.1,
          sw.2)) := rfl
  rw [h1, if_neg neg_one_ne_zero', hval]
  rfl

theorem append_gate_witnesses (c : Constraint) (s : TurboComposer) :
    (append_gate c s).witnesses = s.witnesses := rfl

theorem gate_add_spec (c : Constraint) (s : TurboComposer) :
    ∃ s' w, gate_add c s = some (s', w) ∧
      s'.witnesses = s.witnesses ++ [add_out c s] ∧ w = s.witnesses.length :=
  ⟨_, _, gate_add_eq c s, rfl, rfl⟩

theorem gate_mul_spec (c : Constraint) (s : TurboComposer) :
    ∃ s' w, gate_mul c s = some (s', w) ∧
      s'.witnesses = s.witnesses ++ [add_out c s] ∧ w = s.witnesses.length :=
  ⟨_, _, gate_mul_eq c s, rfl, rfl⟩

/-- C5: when the bit witness carries the value 1 or 0, `component_select`
returns a witness valued `a`'s value for a 1-bit and `b`'s value for a 0-bit,
for arbitrary field values assigned to `a` and `b` (and in either build
mode, as the debug assertion then passes). -/
theorem C5_component_select (dbg : Bool) (s : TurboComposer) (bit a b : Witness)
    (vb va vb2 : F) (hbit : s.witnesses.get? bit = some vb)
    (ha : s.witnesses.get? a = some va) (hb : s.witnesses.get? b = some vb2)
    (hbool : vb = 1 ∨ vb = 0) :
    ∃ s' w, component_select dbg bit a b s = some (s', w) ∧
      s'.witnesses.get? w = some (if vb = 1 then va else vb2) := by
  have hval : wval s bit = vb := wval_eq_of_get? hbit
  have hguard : ¬(dbg = true ∧ ¬(wval s bit = 1 ∨ wval s bit = 0)) := by
    rw [hval]; exact fun hc => hc.2 hbool
  obtain ⟨s1, w1, h1, hw1, hi1⟩ :=
    gate_mul_spec (((Constraint.new.mult 1).a bit).b a) s
  obtain ⟨s2, w2, h2, hw2, hi2⟩ :=
    gate_add_spec (((Constraint.new.left (-1)).constant 1).a bit) s1
  obtain ⟨s3, w3, h3, hw3, hi3⟩ :=
    gate_mul_spec (((Constraint.new.mult 1).a w2).b b) s2
  obtain ⟨s4, w4, h4, hw4, hi4⟩ :=
    gate_add_spec ((((Constraint.new.left 1).right 1).a w3).b w1) s3
  have hx1 : add_out (((Constraint.new.mult 1).a bit).b a) s = vb * va := by
    simp [add_out, Constraint.new, Constraint.mult, Constraint.a, Constraint.b,
      wval_eq_of_get? hbit, wval_eq_of_get? ha]
  have hbit1 : s1.witnesses.get? bit = some vb := by
    rw [hw1]; exact get?_snoc hbit
  have hb1 : s1.witnesses.get? b = some vb2 := by
    rw [hw1]; exact get?_snoc hb
  have hw1v : s1.witnesses.get? w1 = some (vb * va) := by
    rw [hw1, hi1, hx1]; exact get?_snoc_self _ _
  have hx2 : add_out (((Constraint.new.left (-1)).constant 1).a bit) s1
      = 1 - vb := by
    simp [add_out, Constraint.new, Constraint.left, Constraint.constant,
      Constraint.a, wval_eq_of_get? hbit1]
    ring
  have hb2 : s2.witnesses.get? b = some vb2 := by
    rw [hw2]; exact get?_snoc hb1
  have hw1v2 : s2.witnesses.get? w1 = some (vb * va) := by
    rw [hw2]; exact get?_snoc hw1v
  have hw2v : s2.witnesses.get? w2 = some (1 - vb) := by
    rw [hw2, hi2, hx2]; exact get?_snoc_self _ _
  have hx3 : add_out (((Constraint.new.mult 1).a w2).b b) s2
      = (1 - vb) * vb2 := by
    simp [add_out, Constraint.new, Constraint.mult, Constraint.a, Constraint.b,
      wval_eq_of_get? hw2v, wval_eq_of_get? hb2]
  have hw1v3 : s3.witnesses.get? w1 = some (vb * va) := by
    rw [hw3]; exact get?_snoc hw1v2
  have hw3v : s3.witnesses.get? w3 = some ((1 - vb) * vb2) := by
    rw [hw3, hi3, hx3]; exact get?_snoc_self _ _
  have hx4 : add_out ((((Constraint.new.left 1).right 1).a w3).b w1) s3
      = (1 - vb) * vb2 + vb * va := by
    simp [add_out, Constraint.new, Constraint.left, Constraint.right,
      Constraint.a, Constraint.b, wval_eq_of_get? hw3v, wval_eq_of_get? hw1v3]
  refine ⟨s4, w4, ?_, ?_⟩
  · unfold component_select
    rw [if_neg hguard]
    simp only [Option.bind_eq_bind]
    rw [h1]
    simp only [Option.some_bind]
    rw [h2]
    simp only [Option.some_bind]
    rw [h3]
    simp only [Option.some_bind]
    exact h4
  · rw [hw4, hi4, hx4, get?_snoc_self]
    rcases hbool with rfl | rfl
    · rw [if_pos rfl]
      congr 1
      ring
    · rw [if_neg (by norm_num : (0 : F) ≠ 1)]
      congr 1
      ring

theorem C5_component_select_witness :
    (select_state.witnesses.get? 5 = some 1 ∧
      select_state.witnesses.get? 6 = some 10 ∧
      select_state.witnesses.get? 7 = some 20) ∧
    (∃ s' w, component_select true 5 6 7 select_state = some (s', w) ∧
      s'.witnesses.get? w = some (if (1 : F) = 1 then 10 else 20)) :=
  ⟨⟨by decide, by decide, by decide⟩,
    C5_component_select true select_state 5 6 7 1 10 20 (by decide) (by decide)
      (by decide) (Or.inl rfl)⟩

/-- C9 counterexample: the bound check on `N` is a plain `assert!`, active in
optimized builds as well — calling `component_decomposition` with `N = 0` or
`N = 257` in a non-debug build still aborts, contradicting the claim that the
precondition is unchecked there. -/
theorem C9_counterexample :
    component_decomposition false 0 0 new = none ∧
      component_decomposition false 257 0 new = none :=
  ⟨rfl, rfl⟩

/-- C9 amended: `N ∉ [1,256]` aborts `component_decomposition` in every build
mode (its check is a plain `assert!`), while the select gadget's
`bit ∈ {0,1}` precondition is a `debug_assert!`: fatal in debug builds,
unchecked in optimized builds. -/
theorem C9_bound_checks_amended (debug : Bool) (N : ℕ) (scalar : Witness)
    (s : TurboComposer) (hN : ¬(0 < N ∧ N ≤ 256)) :
    component_decomposition debug N scalar s = none ∧
    (∀ bit a b, wval s bit ≠ 1 → wval s bit ≠ 0 →
      component_select true bit a b s = none) ∧
    (∀ bit a b, ∃ s' w, component_select false bit a b s = some (s', w)) := by
  refine ⟨?_, ?_, ?_⟩
  · show (if 0 < N ∧ N ≤ 256 then _ else none) = none
    rw [if_neg hN]
  · intro bit a b h1 h0
    unfold component_select
    rw [if_pos ⟨rfl, fun hor => hor.elim h1 h0⟩]
  · intro bit a b
    obtain ⟨s1, w1, h1, -, -⟩ :=
      gate_mul_spec (((Constraint.new.mult 1).a bit).b a) s
    obtain ⟨s2, w2, h2, -, -⟩ :=
      gate_add_spec (((Constraint.new.left (-1)).constant 1).a bit) s1
    obtain ⟨s3, w3, h3, -, -⟩ :=
      gate_mul_spec (((Constraint.new.mult 1).a w2).b b) s2
    obtain ⟨s4, w4, h4, -, -⟩ :=
      gate_add_spec ((((Constraint.new.left 1).right 1).a w3).b w1) s3
    refine ⟨s4, w4, ?_⟩
    unfold component_select
    rw [if_neg (by simp : ¬(false = true ∧
      ¬(wval s bit = 1 ∨ wval s bit = 0)))]
    simp only [Option.bind_eq_bind]
    rw [h1]
    simp only [Option.some_bind]
    rw [h2]
    simp only [Option.some_bind]
    rw [h3]
    simp only [Option.some_bind]
    exact h4

theorem C9_bound_checks_amended_witness :
    ¬(0 < 0 ∧ 0 ≤ 256) ∧
      component_decomposition true 0 0 five_state = none ∧
      wval five_state 5 ≠ 1 ∧ wval five_state 5 ≠ 0 ∧
      component_select true 5 0 0 five_state = none ∧
      (∃ s' w, component_select false 5 0 0 five_state = some (s', w)) := by
  have h := C9_bound_checks_amended true 0 0 five_state (by decide)
  exact ⟨by decide, h.1, by decide, by decide,
    h.2.1 5 0 0 (by decide) (by decide), h.2.2 5 0 0⟩

/-! ## C6: bit decomposition -/


theorem component_boolean_witnesses (w : Witness) (s : TurboComposer) :
    (component_boolean w s).witnesses = s.witnesses := rfl

theorem decomp_loop_succ (bits : ℕ → Bool) (i k : ℕ) (acc : Witness)
    (s : TurboComposer) :
    decomp_loop bits i (k + 1) acc s =
      (match gate_add ((((Constraint.new.left (2 ^ i)).right 1).a
          (append_witness (if bits i then (1 : F) else 0) s).2).b acc)
          (component_boolean (append_witness (if bits i then (1 : F) else 0) s).2
            (append_witness (if bits i then (1 : F) else 0) s).1) with
      | none => none
      | some (s2, acc1) =>
        match decomp_loop bits (i + 1) k acc1 s2 with
        | none => none
        | some (s3, ds, accw) =>
          some (s3, (append_witness (if bits i then (1 : F) else 0) s).2 :: ds,
            accw)) := rfl

theorem decomp_loop_spec (bits : ℕ → Bool) (k : ℕ) :
    ∀ (i : ℕ) (acc : Witness) (s : TurboComposer) (accv : F),
      s.witnesses.get? acc = some accv →
      ∃ s' ds accw,
        decomp_loop bits i k acc s = some (s', ds, accw) ∧
        ds.length = k ∧
        (∀ w v, s.witnesses.get? w = some v → s'.witnesses.get? w = some v) ∧
        (∀ j, j < k → ∃ dj, ds.get? j = some dj ∧
          s'.witnesses.get? dj = some (if bits (i + j) then 1 else 0)) ∧
        s'.witnesses.get? accw = some (accv +
          ∑ j ∈ Finset.range k,
            (if bits (i + j) then (1 : F) else 0) * 2 ^ (i + j)) := by
  induction k with
  | zero =>
    intro i acc s accv hacc
    exact ⟨s, [], acc, rfl, rfl, fun w v h => h,
      fun j hj => absurd hj (Nat.not_lt_zero j), by simpa using hacc⟩
  | succ k ih =>
    intro i acc s accv hacc
    -- the fresh bit witness and the boolean gate (arena: one snoc)
    have hs1w : (component_boolean
          (append_witness (if bits i then (1 : F) else 0) s).2
          (append_witness (if bits i then (1 : F) else 0) s).1).witnesses
        = s.witnesses ++ [if bits i then (1 : F) else 0] := rfl
    obtain ⟨s2, acc1, hg, hw2, hi2⟩ :=
      gate_add_spec ((((Constraint.new.left (2 ^ i)).right 1).a
          (append_witness (if bits i then (1 : F) else 0) s).2).b acc)
        (component_boolean (append_witness (if bits i then (1 : F) else 0) s).2
          (append_witness (if bits i then (1 : F) else 0) s).1)
    -- value of the bit witness inside the post-boolean state
    have hd1 : (component_boolean
          (append_witness (if bits i then (1 : F) else 0) s).2
          (append_witness (if bits i then (1 : F) else 0) s).1).witnesses.get?
          (append_witness (if bits i then (1 : F) else 0) s).2
        = some (if bits i then (1 : F) else 0) := by
      rw [hs1w]
      exact get?_snoc_self _ _
    have hacc' : (component_boolean
          (append_witness (if bits i then (1 : F) else 0) s).2
          (append_witness (if bits i then (1 : F) else 0) s).1).witnesses.get?
          acc = some accv := by
      rw [hs1w]
      exact get?_snoc hacc
    have hx : add_out ((((Constraint.new.left (2 ^ i)).right 1).a
          (append_witness (if bits i then (1 : F) else 0) s).2).b acc)
        (component_boolean (append_witness (if bits i then (1 : F) else 0) s).2
          (append_witness (if bits i then (1 : F) else 0) s).1)
        = (if bits i then (1 : F) else 0) * 2 ^ i + accv := by
      simp [add_out, Constraint.new, Constraint.left, Constraint.right,
        Constraint.a, Constraint.b, wval_eq_of_get? hd1, wval_eq_of_get? hacc']
    -- value of the chained accumulator
    have hacc1 : s2.witnesses.get? acc1
        = some ((if bits i then (1 : F) else 0) * 2 ^ i + accv) := by
      rw [hw2, hi2, hx]
      exact get?_snoc_self _ _
    obtain ⟨s3, ds, accw, hloop, hlen, hpres, hbits, hfin⟩ :=
      ih (i + 1) acc1 s2 _ hacc1
    refine ⟨s3, (append_witness (if bits i then (1 : F) else 0) s).2 :: ds,
      accw, ?_, by simp [hlen], ?_, ?_, ?_⟩
    · rw [decomp_loop_succ, hg]
      show (match decomp_loop bits (i + 1) k acc1 s2 with
        | none => none
        | some (s3, ds, accw) =>
          some (s3, (append_witness (if bits i then (1 : F) else 0) s).2 :: ds,
            accw)) = _
      rw [hloop]
    · -- preservation from s to s3
      intro w v hw
      refine hpres w v ?_
      rw [hw2]
      refine get?_snoc ?_
      rw [hs1w]
      exact get?_snoc hw
    · -- the bit values
      intro j hj
      match j with
      | 0 =>
        refine ⟨(append_witness (if bits i then (1 : F) else 0) s).2, rfl, ?_⟩
        have hv2 : s2.witnesses.get?
            (append_witness (if bits i then (1 : F) else 0) s).2
            = some (if bits i then (1 : F) else 0) := by
          rw [hw2]
          exact get?_snoc hd1
        have h3 := hpres _ _ hv2
        simpa using h3
      | j + 1 =>
        obtain ⟨dj, hdj, hdv⟩ := hbits j (by omega)
        refine ⟨dj, hdj, ?_⟩
        have hsh : i + 1 + j = i + (j + 1) := by omega
        rw [hsh] at hdv
        exact hdv
    · -- the accumulated weighted sum
      rw [hfin]
      congr 1
      rw [Finset.sum_range_succ']
      have hsum : ∑ j ∈ Finset.range k,
          (if bits (i + (j + 1)) then (1 : F) else 0) * 2 ^ (i + (j + 1))
          = ∑ j ∈ Finset.range k,
            (if bits (i + 1 + j) then (1 : F) else 0) * 2 ^ (i + 1 + j) :=
        Finset.sum_congr rfl fun j _ => by
          rw [show i + (j + 1) = i + 1 + j by omega]
      rw [hsum]
      simp only [Nat.add_zero]
      ring

/-- C6: for `1 ≤ N ≤ 256` and a witness `scalar` valued `v`,
`component_decomposition` returns `N` witnesses valued at the `N` low-order
bits of `v`'s canonical representation, least-significant first, and the
accumulator asserted equal to `scalar` by the final gate (left wire of the
last row, against `scalar` on the right wire) carries the weighted sum
`Σ bit_j · 2^j`. -/
theorem C6_component_decomposition (dbg : Bool) (N : ℕ) (scalar : Witness)
    (s : TurboComposer) (v : F) (hN1 : 0 < N) (hN2 : N ≤ 256)
    (hs : s.witnesses.get? scalar = some v)
    (h0 : s.witnesses.get? 0 = some 0) :
    ∃ s' ds accw,
      component_decomposition dbg N scalar s = some (s', ds) ∧
      ds.length = N ∧
      (∀ j, j < N → ∃ dj, ds.get? j = some dj ∧
        s'.witnesses.get? dj = some (if (v.val).testBit j then 1 else 0)) ∧
      s'.w_l.get? (s'.w_l.length - 1) = some accw ∧
      s'.w_r.get? (s'.w_r.length - 1) = some scalar ∧
      s'.witnesses.get? accw = some
        (∑ j ∈ Finset.range N,
          (if (v.val).testBit j then (1 : F) else 0) * 2 ^ j) := by
  have hbits : (fun i => ((wval s scalar).val).testBit i)
      = fun i => (v.val).testBit i := by
    rw [wval_eq_of_get? hs]
  obtain ⟨s1, ds, accw, hloop, hlen, hpres, hbv, hfin⟩ :=
    decomp_loop_spec (fun i => (v.val).testBit i) N 0 0 s 0 h0
  have hcd : component_decomposition dbg N scalar s =
      (if 0 < N ∧ N ≤ 256 then
        match decomp_loop (fun i => ((wval s scalar).val).testBit i) 0 N 0 s with
        | none => none
        | some (s1, ds, acc) => some (assert_equal acc scalar s1, ds)
      else none) := rfl
  refine ⟨assert_equal accw scalar s1, ds, accw, ?_, hlen, ?_, ?_, ?_, ?_⟩
  · rw [hcd, if_pos ⟨hN1, hN2⟩, hbits, hloop]
  · intro j hj
    obtain ⟨dj, hdj, hdv⟩ := hbv j (by omega)
    refine ⟨dj, hdj, ?_⟩
    have harena : (assert_equal accw scalar s1).witnesses = s1.witnesses := rfl
    rw [harena]
    simpa using hdv
  · have hwl : (assert_equal accw scalar s1).w_l = s1.w_l ++ [accw] := rfl
    rw [hwl, List.length_append]
    simp only [List.length_singleton, Nat.add_sub_cancel]
    exact get?_snoc_self _ _
  · have hwr : (assert_equal accw scalar s1).w_r = s1.w_r ++ [scalar] := rfl
    rw [hwr, List.length_append]
    simp only [List.length_singleton, Nat.add_sub_cancel]
    exact get?_snoc_self _ _
  · have harena : (assert_equal accw scalar s1).witnesses = s1.witnesses := rfl
    rw [harena, hfin]
    congr 1
    rw [zero_add]
    exact Finset.sum_congr rfl fun j _ => by rw [zero_add]

theorem C6_component_decomposition_witness :
    (five_state.witnesses.get? 5 = some 5 ∧
      five_state.witnesses.get? 0 = some 0 ∧
      ((5 : F)).val.testBit 0 = true ∧ ((5 : F)).val.testBit 1 = false ∧
      ((5 : F)).val.testBit 2 = true ∧ ((5 : F)).val.testBit 3 = false) ∧
    (∃ s' ds accw,
      component_decomposition true 4 5 five_state = some (s', ds) ∧
      ds.length = 4 ∧
      (∀ j, j < 4 → ∃ dj, ds.get? j = some dj ∧
        s'.witnesses.get? dj = some (if (((5 : F)).val).testBit j then 1 else 0)) ∧
      s'.w_l.get? (s'.w_l.length - 1) = some accw ∧
      s'.w_r.get? (s'.w_r.length - 1) = some 5 ∧
      s'.witnesses.get? accw = some
        (∑ j ∈ Finset.range 4,
          (if (((5 : F)).val).testBit j then (1 : F) else 0) * 2 ^ j)) :=
  ⟨⟨by decide, by decide, by decide, by decide, by decide, by decide⟩,
    C6_component_decomposition true 4 5 five_state 5 (by norm_num) (by norm_num)
      (by decide) (by decide)⟩


/-! ## C1: the debug row-identity checker -/


/-! ## C1 machinery: row-identity stability along the API -/

theorem opt_or_none (x : Option F) : opt_or x none = x := by
  cases x <;> rfl

theorem get?_snoc_at {α} {l : List α} {i : ℕ} (x : α) (h : l.length = i) :
    (l ++ [x]).get? i = some x := by
  subst h
  exact get?_snoc_self l x

theorem lget_snoc_at {q : List F} {i : ℕ} (x : F) (h : q.length = i) :
    lget (q ++ [x]) i = x := by
  subst h
  exact lget_snoc_self q x

theorem wval_append_gate (c : Constraint) (s : TurboComposer) (w : Witness) :
    wval (append_gate c s) w = wval s w := rfl

theorem wval_append_witness {s : TurboComposer} (v : F) {w : Witness}
    (h : w < s.witnesses.length) :
    wval (append_witness v s).1 w = wval s w := by
  unfold wval
  show ((s.witnesses ++ [v]).get? w).getD 0 = _
  rw [List.get?_append h]

theorem pi_at_ge {s : TurboComposer} (hst : StoreInv s) {i : ℕ}
    (h : s.n ≤ i) : pi_at s i = 0 := by
  unfold pi_at
  rw [store_find_eq_none fun p hp => by have := hst.keys_lt p hp; omega]
  rfl

theorem pi_at_insert_lt {s : TurboComposer} (hst : StoreInv s) (v : F)
    {i : ℕ} (hi : i < s.n) :
    (store_find i (store_insert s.n v s.public_inputs_sparse_store)).getD 0
      = pi_at s i := by
  rw [store_insert_eq_append hst.keys_lt, store_find_append]
  have hnone : store_find i [(s.n, v)] = none := by
    unfold store_find
    rw [if_neg (by omega : ¬i = s.n)]
    rfl
  rw [hnone, opt_or_none]
  rfl

theorem pi_at_insert_self {s : TurboComposer} (hst : StoreInv s) (v : F) :
    (store_find s.n (store_insert s.n v s.public_inputs_sparse_store)).getD 0
      = v := by
  rw [store_insert_eq_append hst.keys_lt, store_find_append]
  rw [store_find_eq_none fun p hp => by have := hst.keys_lt p hp; omega]
  unfold opt_or store_find
  rw [if_pos rfl]
  rfl

theorem pi_at_append_gate {s : TurboComposer} (c : Constraint)
    (hst : StoreInv s) {i : ℕ} (hi : i < s.n) :
    pi_at (append_gate c s) i = pi_at s i := by
  show ((store_find i (if (Constraint.arithmetic c).has_public_input then
      store_insert s.n c.pi s.public_inputs_sparse_store
    else s.public_inputs_sparse_store)).getD 0) = pi_at s i
  split
  · exact pi_at_insert_lt hst c.pi hi
  · rfl

theorem pi_at_append_gate_self {s : TurboComposer} (c : Constraint)
    (hst : StoreInv s) : pi_at (append_gate c s) s.n = c.pi := by
  show ((store_find s.n (if (Constraint.arithmetic c).has_public_input then
      store_insert s.n c.pi s.public_inputs_sparse_store
    else s.public_inputs_sparse_store)).getD 0) = c.pi
  split
  · exact pi_at_insert_self hst c.pi
  · next hfalse =>
    have hzero : c.pi = 0 := by
      by_contra hne
      exact hfalse (by simpa [Constraint.has_public_input, Constraint.arithmetic]
        using hne)
    rw [store_find_eq_none fun p hp => by have := hst.keys_lt p hp; omega]
    exact hzero.symm

theorem pi_at_append_plonkup {s : TurboComposer} (a b c d : Witness)
    (pi : Option F) (hst : StoreInv s) {i : ℕ} (hi : i < s.n) :
    pi_at (append_plonkup_gate a b c d pi s).1 i = pi_at s i := by
  show ((store_find i (match pi with
      | some v => store_insert s.n v s.public_inputs_sparse_store
      | none => s.public_inputs_sparse_store)).getD 0) = pi_at s i
  match pi with
  | some v => exact pi_at_insert_lt hst v hi
  | none => rfl



theorem wire_lt {s : TurboComposer} {l : List Witness} (hlen : l.length = s.n)
    (hmem : ∀ w ∈ l, w < s.witnesses.length) {i : ℕ} (hi : i < s.n) :
    (l.get? i).getD 0 < s.witnesses.length := by
  have h1 : i < l.length := by omega
  rw [List.get?_eq_get h1]
  exact hmem _ (List.get_mem l i h1)

theorem arith_row_append_witness {s : TurboComposer} (inv : CheckInv s) (v : F)
    {i : ℕ} (hi : i < s.n) :
    arith_row (append_witness v s).1 i = arith_row s i := by
  unfold arith_row
  rw [show (append_witness v s).1.q_arith = s.q_arith from rfl,
    show (append_witness v s).1.q_m = s.q_m from rfl,
    show (append_witness v s).1.q_l = s.q_l from rfl,
    show (append_witness v s).1.q_r = s.q_r from rfl,
    show (append_witness v s).1.q_o = s.q_o from rfl,
    show (append_witness v s).1.q_4 = s.q_4 from rfl,
    show (append_witness v s).1.q_c = s.q_c from rfl,
    show (append_witness v s).1.w_l = s.w_l from rfl,
    show (append_witness v s).1.w_r = s.w_r from rfl,
    show (append_witness v s).1.w_o = s.w_o from rfl,
    show (append_witness v s).1.w_4 = s.w_4 from rfl,
    show pi_at (append_witness v s).1 i = pi_at s i from rfl]
  rw [wval_append_witness v (wire_lt inv.lens.wl inv.wl_lt hi),
    wval_append_witness v (wire_lt inv.lens.wr inv.wr_lt hi),
    wval_append_witness v (wire_lt inv.lens.wo inv.wo_lt hi),
    wval_append_witness v (wire_lt inv.lens.w4 inv.w4_lt hi)]

theorem arith_row_append_gate {s : TurboComposer} (hl : Lens s)
    (hst : StoreInv s) (c : Constraint) {i : ℕ} (hi : i < s.n) :
    arith_row (append_gate c s) i = arith_row s i := by
  unfold arith_row
  rw [pi_at_append_gate c hst hi]
  rw [show (append_gate c s).q_arith = s.q_arith ++ [(1 : F)] from rfl,
    show (append_gate c s).q_m = s.q_m ++ [c.qm] from rfl,
    show (append_gate c s).q_l = s.q_l ++ [c.ql] from rfl,
    show (append_gate c s).q_r = s.q_r ++ [c.qr] from rfl,
    show (append_gate c s).q_o = s.q_o ++ [c.qo] from rfl,
    show (append_gate c s).q_4 = s.q_4 ++ [c.q4] from rfl,
    show (append_gate c s).q_c = s.q_c ++ [c.qc] from rfl,
    show (append_gate c s).w_l = s.w_l ++ [c.wa] from rfl,
    show (append_gate c s).w_r = s.w_r ++ [c.wb] from rfl,
    show (append_gate c s).w_o = s.w_o ++ [c.wo] from rfl,
    show (append_gate c s).w_4 = s.w_4 ++ [c.wd] from rfl]
  rw [lget_snoc _ (by rw [hl.qarith]; exact hi),
    lget_snoc _ (by rw [hl.qm]; exact hi),
    lget_snoc _ (by rw [hl.ql]; exact hi),
    lget_snoc _ (by rw [hl.qr]; exact hi),
    lget_snoc _ (by rw [hl.qo]; exact hi),
    lget_snoc _ (by rw [hl.q4]; exact hi),
    lget_snoc _ (by rw [hl.qc]; exact hi),
    List.get?_append (by rw [hl.wl]; exact hi),
    List.get?_append (by rw [hl.wr]; exact hi),
    List.get?_append (by rw [hl.wo]; exact hi),
    List.get?_append (by rw [hl.w4]; exact hi)]
  rfl

theorem arith_row_append_gate_self {s : TurboComposer} (hl : Lens s)
    (hst : StoreInv s) (c : Constraint) :
    arith_row (append_gate c s) s.n = arith_eval c s := by
  unfold arith_row
  rw [pi_at_append_gate_self c hst]
  rw [show (append_gate c s).q_arith = s.q_arith ++ [(1 : F)] from rfl,
    show (append_gate c s).q_m = s.q_m ++ [c.qm] from rfl,
    show (append_gate c s).q_l = s.q_l ++ [c.ql] from rfl,
    show (append_gate c s).q_r = s.q_r ++ [c.qr] from rfl,
    show (append_gate c s).q_o = s.q_o ++ [c.qo] from rfl,
    show (append_gate c s).q_4 = s.q_4 ++ [c.q4] from rfl,
    show (append_gate c s).q_c = s.q_c ++ [c.qc] from rfl,
    show (append_gate c s).w_l = s.w_l ++ [c.wa] from rfl,
    show (append_gate c s).w_r = s.w_r ++ [c.wb] from rfl,
    show (append_gate c s).w_o = s.w_o ++ [c.wo] from rfl,
    show (append_gate c s).w_4 = s.w_4 ++ [c.wd] from rfl]
  rw [lget_snoc_at _ hl.qarith, lget_snoc_at _ hl.qm, lget_snoc_at _ hl.ql,
    lget_snoc_at _ hl.qr, lget_snoc_at _ hl.qo, lget_snoc_at _ hl.q4,
    lget_snoc_at _ hl.qc, get?_snoc_at _ hl.wl, get?_snoc_at _ hl.wr,
    get?_snoc_at _ hl.wo, get?_snoc_at _ hl.w4]
  show 1 * (c.qm * wval s c.wa * wval s c.wb + c.ql * wval s c.wa
    + c.qr * wval s c.wb + c.qo * wval s c.wo + c.q4 * wval s c.wd
    + c.pi + c.qc) = arith_eval c s
  unfold arith_eval
  ring

theorem arith_row_append_plonkup {s : TurboComposer} (hl : Lens s)
    (hst : StoreInv s) (a b c d : Witness) (pi : Option F) {i : ℕ}
    (hi : i < s.n) :
    arith_row (append_plonkup_gate a b c d pi s).1 i = arith_row s i := by
  unfold arith_row
  rw [pi_at_append_plonkup a b c d pi hst hi]
  rw [show (append_plonkup_gate a b c d pi s).1.q_arith
      = s.q_arith ++ [(0 : F)] from rfl,
    show (append_plonkup_gate a b c d pi s).1.q_m = s.q_m ++ [(0 : F)] from rfl,
    show (append_plonkup_gate a b c d pi s).1.q_l = s.q_l ++ [(0 : F)] from rfl,
    show (append_plonkup_gate a b c d pi s).1.q_r = s.q_r ++ [(0 : F)] from rfl,
    show (append_plonkup_gate a b c d pi s).1.q_o = s.q_o ++ [(0 : F)] from rfl,
    show (append_plonkup_gate a b c d pi s).1.q_4 = s.q_4 ++ [(0 : F)] from rfl,
    show (append_plonkup_gate a b c d pi s).1.q_c = s.q_c ++ [(0 : F)] from rfl,
    show (append_plonkup_gate a b c d pi s).1.w_l = s.w_l ++ [a] from rfl,
    show (append_plonkup_gate a b c d pi s).1.w_r = s.w_r ++ [b] from rfl,
    show (append_plonkup_gate a b c d pi s).1.w_o = s.w_o ++ [c] from rfl,
    show (append_plonkup_gate a b c d pi s).1.w_4 = s.w_4 ++ [d] from rfl]
  rw [lget_snoc _ (by rw [hl.qarith]; exact hi),
    lget_snoc _ (by rw [hl.qm]; exact hi),
    lget_snoc _ (by rw [hl.ql]; exact hi),
    lget_snoc _ (by rw [hl.qr]; exact hi),
    lget_snoc _ (by rw [hl.qo]; exact hi),
    lget_snoc _ (by rw [hl.q4]; exact hi),
    lget_snoc _ (by rw [hl.qc]; exact hi),
    List.get?_append (by rw [hl.wl]; exact hi),
    List.get?_append (by rw [hl.wr]; exact hi),
    List.get?_append (by rw [hl.wo]; exact hi),
    List.get?_append (by rw [hl.w4]; exact hi)]
  rfl

theorem arith_row_append_plonkup_self {s : TurboComposer} (hl : Lens s)
    (a b c d : Witness) (pi : Option F) :
    arith_row (append_plonkup_gate a b c d pi s).1 s.n = 0 := by
  unfold arith_row
  rw [show (append_plonkup_gate a b c d pi s).1.q_arith
      = s.q_arith ++ [(0 : F)] from rfl]
  rw [lget_snoc_at _ hl.qarith]
  ring



theorem lt_len_snoc {α} {l : List α} {w : ℕ} (x : α) (h : w < l.length) :
    w < (l ++ [x]).length := by
  rw [List.length_append, List.length_singleton]
  exact Nat.lt_succ_of_lt h

theorem len_snoc_self {α} (l : List α) (x : α) :
    l.length < (l ++ [x]).length := by
  rw [List.length_append, List.length_singleton]
  exact Nat.lt_succ_self _

theorem adg_q_m (s : TurboComposer) :
    (append_dummy_gates s).q_m = (s.q_m ++ [1]) ++ [(1 : F)] := rfl

theorem adg_q_l (s : TurboComposer) :
    (append_dummy_gates s).q_l = (s.q_l ++ [2]) ++ [(1 : F)] := rfl

theorem adg_q_r (s : TurboComposer) :
    (append_dummy_gates s).q_r = (s.q_r ++ [3]) ++ [(1 : F)] := rfl

theorem adg_q_o (s : TurboComposer) :
    (append_dummy_gates s).q_o = (s.q_o ++ [4]) ++ [(1 : F)] := rfl

theorem adg_q_c (s : TurboComposer) :
    (append_dummy_gates s).q_c = (s.q_c ++ [4]) ++ [(127 : F)] := rfl

theorem adg_q_4 (s : TurboComposer) :
    (append_dummy_gates s).q_4 = (s.q_4 ++ [1]) ++ [(0 : F)] := rfl

theorem adg_q_arith (s : TurboComposer) :
    (append_dummy_gates s).q_arith = (s.q_arith ++ [1]) ++ [(1 : F)] := rfl

theorem adg_q_range (s : TurboComposer) :
    (append_dummy_gates s).q_range = (s.q_range ++ [0]) ++ [(0 : F)] := rfl

theorem adg_q_logic (s : TurboComposer) :
    (append_dummy_gates s).q_logic = (s.q_logic ++ [0]) ++ [(0 : F)] := rfl

theorem adg_w_l (s : TurboComposer) :
    (append_dummy_gates s).w_l
      = (s.w_l ++ [s.witnesses.length])
        ++ [(((s.witnesses ++ [6]) ++ [1]) ++ [7]).length] := rfl

theorem adg_w_r (s : TurboComposer) :
    (append_dummy_gates s).w_r
      = (s.w_r ++ [((s.witnesses ++ [6]) ++ [1]).length])
        ++ [s.witnesses.length] := rfl

theorem adg_w_o (s : TurboComposer) :
    (append_dummy_gates s).w_o
      = (s.w_o ++ [(((s.witnesses ++ [6]) ++ [1]) ++ [7]).length])
        ++ [((s.witnesses ++ [6]) ++ [1]).length] := rfl

theorem adg_w_4 (s : TurboComposer) :
    (append_dummy_gates s).w_4
      = (s.w_4 ++ [(s.witnesses ++ [6]).length]) ++ [0] := rfl

theorem adg_witnesses (s : TurboComposer) :
    (append_dummy_gates s).witnesses
      = (((s.witnesses ++ [6]) ++ [1]) ++ [7]) ++ [-20] := rfl

theorem adg_store (s : TurboComposer) :
    (append_dummy_gates s).public_inputs_sparse_store
      = s.public_inputs_sparse_store := rfl

theorem pi_at_append_dummy (s : TurboComposer) (i : ℕ) :
    pi_at (append_dummy_gates s) i = pi_at s i := by
  unfold pi_at
  rw [adg_store]

theorem wval_append_dummy {s : TurboComposer} {w : Witness}
    (h : w < s.witnesses.length) :
    wval (append_dummy_gates s) w = wval s w := by
  unfold wval
  rw [adg_witnesses,
    List.get?_append (lt_len_snoc 7 (lt_len_snoc 1 (lt_len_snoc 6 h))),
    List.get?_append (lt_len_snoc 1 (lt_len_snoc 6 h)),
    List.get?_append (lt_len_snoc 6 h),
    List.get?_append h]

theorem wval_dummy_six {s : TurboComposer} :
    wval (append_dummy_gates s) s.witnesses.length = 6 := by
  unfold wval
  rw [adg_witnesses,
    List.get?_append (lt_len_snoc 7 (lt_len_snoc 1 (len_snoc_self _ 6))),
    List.get?_append (lt_len_snoc 1 (len_snoc_self _ 6)),
    List.get?_append (len_snoc_self _ 6),
    get?_snoc_self]
  rfl

theorem wval_dummy_one {s : TurboComposer} :
    wval (append_dummy_gates s) (s.witnesses ++ [6]).length = 1 := by
  unfold wval
  rw [adg_witnesses,
    List.get?_append (lt_len_snoc 7 (len_snoc_self _ 1)),
    List.get?_append (len_snoc_self _ 1),
    get?_snoc_self]
  rfl

theorem wval_dummy_seven {s : TurboComposer} :
    wval (append_dummy_gates s) ((s.witnesses ++ [6]) ++ [1]).length = 7 := by
  unfold wval
  rw [adg_witnesses,
    List.get?_append (len_snoc_self _ 7),
    get?_snoc_self]
  rfl

theorem wval_dummy_min_twenty {s : TurboComposer} :
    wval (append_dummy_gates s) (((s.witnesses ++ [6]) ++ [1]) ++ [7]).length
      = -20 := by
  unfold wval
  rw [adg_witnesses, get?_snoc_self]
  rfl

theorem arith_row_append_dummy {s : TurboComposer} (inv : CheckInv s) {i : ℕ}
    (hi : i < s.n) :
    arith_row (append_dummy_gates s) i = arith_row s i := by
  have hl := inv.lens
  unfold arith_row
  rw [pi_at_append_dummy]
  rw [adg_q_arith, adg_q_m, adg_q_l, adg_q_r, adg_q_o, adg_q_4, adg_q_c,
    adg_w_l, adg_w_r, adg_w_o, adg_w_4]
  rw [lget_snoc _ (lt_len_snoc _ (by rw [hl.qarith]; exact hi)),
    lget_snoc _ (by rw [hl.qarith]; exact hi),
    lget_snoc _ (lt_len_snoc _ (by rw [hl.qm]; exact hi)),
    lget_snoc _ (by rw [hl.qm]; exact hi),
    lget_snoc _ (lt_len_snoc _ (by rw [hl.ql]; exact hi)),
    lget_snoc _ (by rw [hl.ql]; exact hi),
    lget_snoc _ (lt_len_snoc _ (by rw [hl.qr]; exact hi)),
    lget_snoc _ (by rw [hl.qr]; exact hi),
    lget_snoc _ (lt_len_snoc _ (by rw [hl.qo]; exact hi)),
    lget_snoc _ (by rw [hl.qo]; exact hi),
    lget_snoc _ (lt_len_snoc _ (by rw [hl.q4]; exact hi)),
    lget_snoc _ (by rw [hl.q4]; exact hi),
    lget_snoc _ (lt_len_snoc _ (by rw [hl.qc]; exact hi)),
    lget_snoc _ (by rw [hl.qc]; exact hi),
    List.get?_append (lt_len_snoc _ (by rw [hl.wl]; exact hi)),
    List.get?_append (by rw [hl.wl]; exact hi),
    List.get?_append (lt_len_snoc _ (by rw [hl.wr]; exact hi)),
    List.get?_append (by rw [hl.wr]; exact hi),
    List.get?_append (lt_len_snoc _ (by rw [hl.wo]; exact hi)),
    List.get?_append (by rw [hl.wo]; exact hi),
    List.get?_append (lt_len_snoc _ (by rw [hl.w4]; exact hi)),
    List.get?_append (by rw [hl.w4]; exact hi)]
  rw [wval_append_dummy (wire_lt hl.wl inv.wl_lt hi),
    wval_append_dummy (wire_lt hl.wr inv.wr_lt hi),
    wval_append_dummy (wire_lt hl.wo inv.wo_lt hi),
    wval_append_dummy (wire_lt hl.w4 inv.w4_lt hi)]

theorem lt_len_snoc_at {α} {l : List α} {i : ℕ} (x : α) (h : l.length = i) :
    i < (l ++ [x]).length := by
  subst h
  exact len_snoc_self l x

theorem arith_row_append_dummy_row1 {s : TurboComposer} (hl : Lens s)
    (hst : StoreInv s) : arith_row (append_dummy_gates s) s.n = 0 := by
  unfold arith_row
  rw [pi_at_append_dummy, pi_at_ge hst le_rfl]
  rw [adg_q_arith, adg_q_m, adg_q_l, adg_q_r, adg_q_o, adg_q_4, adg_q_c,
    adg_w_l, adg_w_r, adg_w_o, adg_w_4]
  rw [lget_snoc _ (lt_len_snoc_at _ hl.qarith), lget_snoc_at _ hl.qarith,
    lget_snoc _ (lt_len_snoc_at _ hl.qm), lget_snoc_at _ hl.qm,
    lget_snoc _ (lt_len_snoc_at _ hl.ql), lget_snoc_at _ hl.ql,
    lget_snoc _ (lt_len_snoc_at _ hl.qr), lget_snoc_at _ hl.qr,
    lget_snoc _ (lt_len_snoc_at _ hl.qo), lget_snoc_at _ hl.qo,
    lget_snoc _ (lt_len_snoc_at _ hl.q4), lget_snoc_at _ hl.q4,
    lget_snoc _ (lt_len_snoc_at _ hl.qc), lget_snoc_at _ hl.qc,
    List.get?_append (lt_len_snoc_at _ hl.wl), get?_snoc_at _ hl.wl,
    List.get?_append (lt_len_snoc_at _ hl.wr), get?_snoc_at _ hl.wr,
    List.get?_append (lt_len_snoc_at _ hl.wo), get?_snoc_at _ hl.wo,
    List.get?_append (lt_len_snoc_at _ hl.w4), get?_snoc_at _ hl.w4]
  simp only [Option.getD_some]
  rw [wval_dummy_six, wval_dummy_one, wval_dummy_seven, wval_dummy_min_twenty]
  norm_num

theorem arith_row_append_dummy_row2 {s : TurboComposer} (hl : Lens s)
    (hst : StoreInv s) : arith_row (append_dummy_gates s) (s.n + 1) = 0 := by
  have hlen : ∀ (q : List F) (x : F), q.length = s.n → (q ++ [x]).length = s.n + 1 := by
    intro q x hq
    rw [List.length_append, List.length_singleton, hq]
  have hlenw : ∀ (q : List Witness) (x : Witness), q.length = s.n →
      (q ++ [x]).length = s.n + 1 := by
    intro q x hq
    rw [List.length_append, List.length_singleton, hq]
  unfold arith_row
  rw [pi_at_append_dummy, pi_at_ge hst (Nat.le_succ_of_le le_rfl)]
  rw [adg_q_arith, adg_q_m, adg_q_l, adg_q_r, adg_q_o, adg_q_4, adg_q_c,
    adg_w_l, adg_w_r, adg_w_o, adg_w_4]
  rw [lget_snoc_at _ (hlen _ _ hl.qarith), lget_snoc_at _ (hlen _ _ hl.qm),
    lget_snoc_at _ (hlen _ _ hl.ql), lget_snoc_at _ (hlen _ _ hl.qr),
    lget_snoc_at _ (hlen _ _ hl.qo), lget_snoc_at _ (hlen _ _ hl.q4),
    lget_snoc_at _ (hlen _ _ hl.qc),
    get?_snoc_at _ (hlenw _ _ hl.wl), get?_snoc_at _ (hlenw _ _ hl.wr),
    get?_snoc_at _ (hlenw _ _ hl.wo), get?_snoc_at _ (hlenw _ _ hl.w4)]
  simp only [Option.getD_some]
  rw [wval_dummy_six, wval_dummy_seven, wval_dummy_min_twenty]
  ring_nf



theorem with_size_eq_zero (size : ℕ) : with_size size = with_size 0 := rfl

theorem check_inv_with_size (size : ℕ) : CheckInv (with_size size) := by
  rw [with_size_eq_zero]
  refine ⟨lens_with_size 0, store_inv_with_size 0,
    ?_, ?_, ?_, ?_, ?_, ?_, ?_⟩
  · intro w hw
    rw [show (with_size 0).w_l = [0, 1, 4] from rfl] at hw
    show w < (with_size 0).witnesses.length
    rw [show (with_size 0).witnesses.length = 5 from rfl]
    simp only [List.mem_cons, List.not_mem_nil, or_false] at hw
    rcases hw with rfl | rfl | rfl <;> decide
  · intro w hw
    rw [show (with_size 0).w_r = [0, 3, 1] from rfl] at hw
    show w < (with_size 0).witnesses.length
    rw [show (with_size 0).witnesses.length = 5 from rfl]
    simp only [List.mem_cons, List.not_mem_nil, or_false] at hw
    rcases hw with rfl | rfl | rfl <;> decide
  · intro w hw
    rw [show (with_size 0).w_o = [0, 4, 3] from rfl] at hw
    show w < (with_size 0).witnesses.length
    rw [show (with_size 0).witnesses.length = 5 from rfl]
    simp only [List.mem_cons, List.not_mem_nil, or_false] at hw
    rcases hw with rfl | rfl | rfl <;> decide
  · intro w hw
    rw [show (with_size 0).w_4 = [0, 2, 0] from rfl] at hw
    show w < (with_size 0).witnesses.length
    rw [show (with_size 0).witnesses.length = 5 from rfl]
    simp only [List.mem_cons, List.not_mem_nil, or_false] at hw
    rcases hw with rfl | rfl | rfl <;> decide
  · intro q hq
    rw [show (with_size 0).q_range = [0, 0, 0] from rfl] at hq
    simp only [List.mem_cons, List.not_mem_nil, or_false] at hq
    rcases hq with rfl | rfl | rfl <;> rfl
  · intro q hq
    rw [show (with_size 0).q_logic = [0, 0, 0] from rfl] at hq
    simp only [List.mem_cons, List.not_mem_nil, or_false] at hq
    rcases hq with rfl | rfl | rfl <;> rfl
  · intro i hi
    rw [show (with_size 0).n = 3 from rfl] at hi
    interval_cases i
    · decide
    · decide
    · decide

theorem check_inv_append_witness {s : TurboComposer} (inv : CheckInv s)
    (v : F) : CheckInv (append_witness v s).1 := by
  refine ⟨lens_append_witness inv.lens v,
    ⟨inv.store.keys_lt, inv.store.sorted⟩, ?_, ?_, ?_, ?_,
    inv.qrange0, inv.qlogic0, ?_⟩
  · intro w hw
    show w < (s.witnesses ++ [v]).length
    exact lt_len_snoc v (inv.wl_lt w hw)
  · intro w hw
    show w < (s.witnesses ++ [v]).length
    exact lt_len_snoc v (inv.wr_lt w hw)
  · intro w hw
    show w < (s.witnesses ++ [v]).length
    exact lt_len_snoc v (inv.wo_lt w hw)
  · intro w hw
    show w < (s.witnesses ++ [v]).length
    exact lt_len_snoc v (inv.w4_lt w hw)
  · intro i hi
    rw [arith_row_append_witness inv v hi]
    exact inv.rows i hi

theorem check_inv_append_gate {s : TurboComposer} (inv : CheckInv s)
    {c : Constraint} (hwa : c.wa < s.witnesses.length)
    (hwb : c.wb < s.witnesses.length) (hwo : c.wo < s.witnesses.length)
    (hwd : c.wd < s.witnesses.length) (hqr : c.qrange = 0)
    (hql : c.qlogic = 0) (heval : arith_eval c s = 0) :
    CheckInv (append_gate c s) := by
  refine ⟨lens_append_gate inv.lens c, store_inv_append_gate inv.store c,
    ?_, ?_, ?_, ?_, ?_, ?_, ?_⟩
  · intro w hw
    have hw' : w ∈ s.w_l ++ [(Constraint.arithmetic c).wa] := hw
    show w < s.witnesses.length
    rcases List.mem_append.mp hw' with h | h
    · exact inv.wl_lt w h
    · rw [List.mem_singleton] at h
      subst h
      exact hwa
  · intro w hw
    have hw' : w ∈ s.w_r ++ [(Constraint.arithmetic c).wb] := hw
    show w < s.witnesses.length
    rcases List.mem_append.mp hw' with h | h
    · exact inv.wr_lt w h
    · rw [List.mem_singleton] at h
      subst h
      exact hwb
  · intro w hw
    have hw' : w ∈ s.w_o ++ [(Constraint.arithmetic c).wo] := hw
    show w < s.witnesses.length
    rcases List.mem_append.mp hw' with h | h
    · exact inv.wo_lt w h
    · rw [List.mem_singleton] at h
      subst h
      exact hwo
  · intro w hw
    have hw' : w ∈ s.w_4 ++ [(Constraint.arithmetic c).wd] := hw
    show w < s.witnesses.length
    rcases List.mem_append.mp hw' with h | h
    · exact inv.w4_lt w h
    · rw [List.mem_singleton] at h
      subst h
      exact hwd
  · intro q hq
    have hq' : q ∈ s.q_range ++ [(Constraint.arithmetic c).qrange] := hq
    rcases List.mem_append.mp hq' with h | h
    · exact inv.qrange0 q h
    · rw [List.mem_singleton] at h
      subst h
      exact hqr
  · intro q hq
    have hq' : q ∈ s.q_logic ++ [(Constraint.arithmetic c).qlogic] := hq
    rcases List.mem_append.mp hq' with h | h
    · exact inv.qlogic0 q h
    · rw [List.mem_singleton] at h
      subst h
      exact hql
  · intro i hi
    have hi2 : i < s.n + 1 := hi
    rcases Nat.lt_succ_iff_lt_or_eq.mp hi2 with hlt | heq
    · rw [arith_row_append_gate inv.lens inv.store c hlt]
      exact inv.rows i hlt
    · subst heq
      rw [arith_row_append_gate_self inv.lens inv.store c]
      exact heval

theorem check_inv_append_plonkup {s : TurboComposer} (inv : CheckInv s)
    {a b c d : Witness} {pi : Option F} (ha : a < s.witnesses.length)
    (hb : b < s.witnesses.length) (hc : c < s.witnesses.length)
    (hd : d < s.witnesses.length) :
    CheckInv (append_plonkup_gate a b c d pi s).1 := by
  refine ⟨lens_append_plonkup_gate inv.lens a b c d pi,
    store_inv_append_plonkup_gate inv.store a b c d pi,
    ?_, ?_, ?_, ?_, ?_, ?_, ?_⟩
  · intro w hw
    have hw' : w ∈ s.w_l ++ [a] := hw
    show w < s.witnesses.length
    rcases List.mem_append.mp hw' with h | h
    · exact inv.wl_lt w h
    · rw [List.mem_singleton] at h
      subst h
      exact ha
  · intro w hw
    have hw' : w ∈ s.w_r ++ [b] := hw
    show w < s.witnesses.length
    rcases List.mem_append.mp hw' with h | h
    · exact inv.wr_lt w h
    · rw [List.mem_singleton] at h
      subst h
      exact hb
  · intro w hw
    have hw' : w ∈ s.w_o ++ [c] := hw
    show w < s.witnesses.length
    rcases List.mem_append.mp hw' with h | h
    · exact inv.wo_lt w h
    · rw [List.mem_singleton] at h
      subst h
      exact hc
  · intro w hw
    have hw' : w ∈ s.w_4 ++ [d] := hw
    show w < s.witnesses.length
    rcases List.mem_append.mp hw' with h | h
    · exact inv.w4_lt w h
    · rw [List.mem_singleton] at h
      subst h
      exact hd
  · intro q hq
    have hq' : q ∈ s.q_range ++ [(0 : F)] := hq
    rcases List.mem_append.mp hq' with h | h
    · exact inv.qrange0 q h
    · rw [List.mem_singleton] at h
      exact h
  · intro q hq
    have hq' : q ∈ s.q_logic ++ [(0 : F)] := hq
    rcases List.mem_append.mp hq' with h | h
    · exact inv.qlogic0 q h
    · rw [List.mem_singleton] at h
      exact h
  · intro i hi
    have hi2 : i < s.n + 1 := hi
    rcases Nat.lt_succ_iff_lt_or_eq.mp hi2 with hlt | heq
    · rw [arith_row_append_plonkup inv.lens inv.store a b c d pi hlt]
      exact inv.rows i hlt
    · subst heq
      exact arith_row_append_plonkup_self inv.lens a b c d pi

theorem check_inv_append_dummy {s : TurboComposer} (inv : CheckInv s) :
    CheckInv (append_dummy_gates s) := by
  refine ⟨lens_append_dummy_gates inv.lens,
    store_inv_append_dummy_gates inv.store, ?_, ?_, ?_, ?_, ?_, ?_, ?_⟩
  · intro w hw
    have hw' : w ∈ (s.w_l ++ [s.witnesses.length])
        ++ [(((s.witnesses ++ [6]) ++ [1]) ++ [7]).length] := by
      rw [← adg_w_l]; exact hw
    rw [show (append_dummy_gates s).witnesses
      = (((s.witnesses ++ [6]) ++ [1]) ++ [7]) ++ [-20] from adg_witnesses s]
    rcases List.mem_append.mp hw' with h | h
    · rcases List.mem_append.mp h with h2 | h2
      · exact lt_len_snoc _ (lt_len_snoc _ (lt_len_snoc _ (lt_len_snoc _
          (inv.wl_lt w h2))))
      · rw [List.mem_singleton] at h2
        subst h2
        exact lt_len_snoc _ (lt_len_snoc _ (lt_len_snoc _ (len_snoc_self _ _)))
    · rw [List.mem_singleton] at h
      subst h
      exact len_snoc_self _ _
  · intro w hw
    have hw' : w ∈ (s.w_r ++ [((s.witnesses ++ [6]) ++ [1]).length])
        ++ [s.witnesses.length] := by
      rw [← adg_w_r]; exact hw
    rw [show (append_dummy_gates s).witnesses
      = (((s.witnesses ++ [6]) ++ [1]) ++ [7]) ++ [-20] from adg_witnesses s]
    rcases List.mem_append.mp hw' with h | h
    · rcases List.mem_append.mp h with h2 | h2
      · exact lt_len_snoc _ (lt_len_snoc _ (lt_len_snoc _ (lt_len_snoc _
          (inv.wr_lt w h2))))
      · rw [List.mem_singleton] at h2
        subst h2
        exact lt_len_snoc _ (len_snoc_self _ _)
    · rw [List.mem_singleton] at h
      subst h
      exact lt_len_snoc _ (lt_len_snoc _ (lt_len_snoc _ (len_snoc_self _ _)))
  · intro w hw
    have hw' : w ∈ (s.w_o ++ [(((s.witnesses ++ [6]) ++ [1]) ++ [7]).length])
        ++ [((s.witnesses ++ [6]) ++ [1]).length] := by
      rw [← adg_w_o]; exact hw
    rw [show (append_dummy_gates s).witnesses
      = (((s.witnesses ++ [6]) ++ [1]) ++ [7]) ++ [-20] from adg_witnesses s]
    rcases List.mem_append.mp hw' with h | h
    · rcases List.mem_append.mp h with h2 | h2
      · exact lt_len_snoc _ (lt_len_snoc _ (lt_len_snoc _ (lt_len_snoc _
          (inv.wo_lt w h2))))
      · rw [List.mem_singleton] at h2
        subst h2
        exact len_snoc_self _ _
    · rw [List.mem_singleton] at h
      subst h
      exact lt_len_snoc _ (len_snoc_self _ _)
  · intro w hw
    have hw' : w ∈ (s.w_4 ++ [(s.witnesses ++ [6]).length]) ++ [0] := by
      rw [← adg_w_4]; exact hw
    rw [show (append_dummy_gates s).witnesses
      = (((s.witnesses ++ [6]) ++ [1]) ++ [7]) ++ [-20] from adg_witnesses s]
    rcases List.mem_append.mp hw' with h | h
    · rcases List.mem_append.mp h with h2 | h2
      · exact lt_len_snoc _ (lt_len_snoc _ (lt_len_snoc _ (lt_len_snoc _
          (inv.w4_lt w h2))))
      · rw [List.mem_singleton] at h2
        subst h2
        exact lt_len_snoc _ (lt_len_snoc _ (len_snoc_self _ _))
    · rw [List.mem_singleton] at h
      subst h
      show 0 < ((((s.witnesses ++ [6]) ++ [1]) ++ [7]) ++ [-20]).length
      rw [List.length_append, List.length_singleton]
      omega
  · intro q hq
    have hq' : q ∈ (s.q_range ++ [0]) ++ [(0 : F)] := by
      rw [← adg_q_range]; exact hq
    rcases List.mem_append.mp hq' with h | h
    · rcases List.mem_append.mp h with h2 | h2
      · exact inv.qrange0 q h2
      · rw [List.mem_singleton] at h2
        exact h2
    · rw [List.mem_singleton] at h
      exact h
  · intro q hq
    have hq' : q ∈ (s.q_logic ++ [0]) ++ [(0 : F)] := by
      rw [← adg_q_logic]; exact hq
    rcases List.mem_append.mp hq' with h | h
    · rcases List.mem_append.mp h with h2 | h2
      · exact inv.qlogic0 q h2
      · rw [List.mem_singleton] at h2
        exact h2
    · rw [List.mem_singleton] at h
      exact h
  · intro i hi
    have hi2 : i < s.n + 1 + 1 := hi
    rcases Nat.lt_succ_iff_lt_or_eq.mp hi2 with hlt | heq
    · rcases Nat.lt_succ_iff_lt_or_eq.mp hlt with hlt2 | heq2
      · rw [arith_row_append_dummy inv hlt2]
        exact inv.rows i hlt2
      · subst heq2
        exact arith_row_append_dummy_row1 inv.lens inv.store
    · subst heq
      exact arith_row_append_dummy_row2 inv.lens inv.store

theorem check_inv_append_table {s : TurboComposer} (inv : CheckInv s)
    (t : List (F × F × F × F)) : CheckInv (append_plonkup_table t s) := by
  refine ⟨lens_append_plonkup_table inv.lens t,
    ⟨inv.store.keys_lt, inv.store.sorted⟩, inv.wl_lt, inv.wr_lt, inv.wo_lt,
    inv.w4_lt, inv.qrange0, inv.qlogic0, ?_⟩
  intro i hi
  have harr : arith_row (append_plonkup_table t s) i = arith_row s i := rfl
  rw [harr]
  exact inv.rows i hi

theorem sat_reachable_check_inv {s : TurboComposer} (h : SatReachable s) :
    CheckInv s := by
  induction h with
  | init size => exact check_inv_with_size size
  | append_witness_step v s _ ih => exact check_inv_append_witness ih v
  | append_gate_step c s _ hwa hwb hwo hwd hqr hql heval ih =>
    exact check_inv_append_gate ih hwa hwb hwo hwd hqr hql heval
  | append_plonkup_gate_step a b c d pi s _ ha hb hc hd ih =>
    exact check_inv_append_plonkup ih ha hb hc hd
  | append_dummy_gates_step s _ ih => exact check_inv_append_dummy ih
  | append_plonkup_table_step t s _ ih => exact check_inv_append_table ih t



theorem wval_of_lt {s : TurboComposer} {w : Witness}
    (h : w < s.witnesses.length) :
    s.witnesses.get? w = some (wval s w) := by
  unfold wval
  rw [List.get?_eq_get h]
  rfl

theorem resolve_wires_eq {s : TurboComposer} :
    ∀ {ws : List Witness}, (∀ w ∈ ws, w < s.witnesses.length) →
      resolve_wires s ws = some (ws.map (wval s))
  | [], _ => rfl
  | w :: t, h => by
    have hw := wval_of_lt (h w (List.mem_cons_self w t))
    have ht := @resolve_wires_eq s t fun x hx =>
      h x (List.mem_cons_of_mem w hx)
    unfold resolve_wires
    rw [hw, ht]
    rfl

theorem lget_map_wval {s : TurboComposer} {l : List Witness} {i : ℕ}
    (h : i < l.length) :
    lget (l.map (wval s)) i = wval s ((l.get? i).getD 0) := by
  unfold lget
  rw [List.get?_map, List.get?_eq_get h]
  rfl

theorem lget_all_zero {l : List F} (h0 : ∀ q ∈ l, q = 0) {i : ℕ}
    (hi : i < l.length) : lget l i = 0 := by
  unfold lget
  rw [List.get?_eq_get hi]
  simp only [Option.getD_some]
  exact h0 _ (List.get_mem l i hi)

theorem row_eval_eq_arith_row {s : TurboComposer} (inv : CheckInv s)
    {piv : List F} (hpiv : ∀ j, j < s.n → lget piv j = pi_at s j)
    {i : ℕ} (hi : i < s.n) :
    row_eval s piv (s.w_l.map (wval s)) (s.w_r.map (wval s))
      (s.w_o.map (wval s)) (s.w_4.map (wval s)) i = arith_row s i := by
  have hpos : 0 < s.n := Nat.lt_of_le_of_lt (Nat.zero_le i) hi
  have hmap : ∀ (l : List Witness), l.length = s.n → ∀ j, j < s.n →
      lget (l.map (wval s)) j = wval s ((l.get? j).getD 0) :=
    fun l hlen j hj => lget_map_wval (by rw [hlen]; exact hj)
  unfold row_eval arith_row
  rw [lget_all_zero inv.qlogic0 (by rw [inv.lens.qlogic]; exact hi),
    lget_all_zero inv.qrange0 (by rw [inv.lens.qrange]; exact hi),
    hpiv i hi,
    hmap s.w_l inv.lens.wl i hi,
    hmap s.w_l inv.lens.wl ((i + 1) % s.n) (Nat.mod_lt _ hpos),
    hmap s.w_r inv.lens.wr i hi,
    hmap s.w_r inv.lens.wr ((i + 1) % s.n) (Nat.mod_lt _ hpos),
    hmap s.w_o inv.lens.wo i hi,
    hmap s.w_4 inv.lens.w4 i hi,
    hmap s.w_4 inv.lens.w4 ((i + 1) % s.n) (Nat.mod_lt _ hpos)]
  ring

theorem check_of_inv {s : TurboComposer} (inv : CheckInv s) :
    check_circuit_satisfied s = some true := by
  obtain ⟨piv, hpiv, hlen, hget⟩ := densify_spec s.public_inputs_sparse_store
    (List.replicate s.n 0) (List.length_replicate _ _) inv.store.keys_lt
    (inv.store.sorted.imp fun hab => Nat.ne_of_lt hab)
  have hdense : to_dense_public_inputs s = some piv := hpiv
  have hpivat : ∀ j, j < s.n → lget piv j = pi_at s j := by
    intro j hj
    unfold lget pi_at
    rw [hget j]
    cases hf : store_find j s.public_inputs_sparse_store with
    | none =>
      show ((List.replicate s.n (0 : F)).get? j).getD 0 = _
      rw [List.get?_eq_get (by rw [List.length_replicate]; exact hj)]
      simp [List.get_replicate]
    | some v => rfl
  unfold check_circuit_satisfied
  rw [resolve_wires_eq inv.wl_lt]
  simp only [Option.bind_eq_bind, Option.some_bind]
  rw [resolve_wires_eq inv.wr_lt]
  simp only [Option.some_bind]
  rw [resolve_wires_eq inv.wo_lt]
  simp only [Option.some_bind]
  rw [resolve_wires_eq inv.w4_lt]
  simp only [Option.some_bind]
  rw [hdense]
  simp only [Option.some_bind]
  show some ((List.range s.n).all _) = some true
  congr 1
  rw [List.all_eq_true]
  intro i hi
  rw [List.mem_range] at hi
  simp only [beq_iff_eq]
  rw [row_eval_eq_arith_row inv hpivat hi]
  exact inv.rows i hi

/-- C1 amended: every circuit built through the composer's API passes the
debug full-circuit checker, provided each `append_gate` submission binds
allocated witness handles, leaves the Range and Logic selectors at zero, and
carries an arithmetic row identity (PublicInput coefficient included) that
evaluates to the field's additive identity on the assigned values — exactly
the shape of every gate the composer's own operations emit.  An arbitrary
`append_gate` submission violating its own identity makes the checker report
the failing row instead (see the counterexample). -/
theorem C1_row_identity_amended (s : TurboComposer) (h : SatReachable s) :
    check_circuit_satisfied s = some true :=
  check_of_inv (sat_reachable_check_inv h)

theorem C1_row_identity_amended_witness :
    check_circuit_satisfied (with_size 0) = some true :=
  C1_row_identity_amended (with_size 0) (SatReachable.init 0)

/-- C1 counterexample: the circuit reached through the API by allocating
witnesses valued 1 and 0 and asserting them equal is a constructed circuit on
which the debug checker reports an unsatisfied row (`some false`), refuting
"the debug full-circuit checker finds every row satisfied for every circuit
built through the composer's API". -/
theorem C1_counterexample :
    Reachable bad_circuit ∧
      check_circuit_satisfied bad_circuit = some false := by
  constructor
  · exact Reachable.append_gate_step
      ((((Constraint.new.left 1).right (-1)).a (append_witness 1 new).2).b
        (append_witness 0 (append_witness 1 new).1).2)
      (append_witness 0 (append_witness 1 new).1).1
      (Reachable.append_witness_step 0 _
        (Reachable.append_witness_step 1 _ (Reachable.init 0)))
  · decide

end DuskPlonk
